import Mathlib

/-!
# Verification development for `ras_tasklingo`

Shallow embedding of the two core source files of the repository:

* `src/scripts/asset_mapper.py` — call-expression splitter, literal value
  parser, command builder and container resolver;
* `src/scripts/pose_fetcher.py` — pose synthesizer (`process_pose_sequence`)
  with quaternion-to-Euler conversion.

Modelling conventions:

* Python strings are modelled as `List Char` (ASCII data is what the
  pipeline handles); `String` is used at the outer interfaces.
* Python floats that the code parses from decimal literals are modelled as
  exact rationals `ℚ`; the transcendental orientation math
  (`math.atan2`, `math.asin`) is modelled over `ℝ` with Mathlib's
  `Real.arctan` / `Real.arcsin`.  `round(x, 3)` is modelled with Mathlib's
  `round` (round-half-up; Python uses round-half-even — the two differ only
  at exact half-thousandths, which no claim exercises).
* Fallible Python operations (list unpacking of the wrong arity, list
  indexing out of range) are modelled in the `Except String` monad; the
  error message mirrors the Python exception.
* Python `dict`s are modelled as insertion-ordered association lists; keys
  are never inserted twice on the paths the claims exercise.
-/

/-! ## Python string primitives -/

/-- The whitespace characters stripped by Python's `str.strip()` /
tested by `str.isspace()` (ASCII subset). -/
def pyIsSpace (c : Char) : Bool :=
  c = ' ' || c = '\t' || c = '\n' || c = '\r' || c = '\x0b' || c = '\x0c'

/-- Python `s.strip()`: remove leading and trailing whitespace. -/
def pyStrip (l : List Char) : List Char :=
  ((l.dropWhile pyIsSpace).reverse.dropWhile pyIsSpace).reverse

/-- Python `s.strip(chars)`: remove any of the given characters from both
ends (used by the source as `strip('()')`, `strip('"')`, `strip("'")`). -/
def stripSet (cs : List Char) (l : List Char) : List Char :=
  ((l.dropWhile (fun c => cs.contains c)).reverse.dropWhile (fun c => cs.contains c)).reverse

/-- Python `s.split(sep)` for a one-character separator: keeps empty
pieces, so the result is always non-empty. -/
def splitOnChar (sep : Char) : List Char → List (List Char)
  | [] => [[]]
  | c :: rest =>
    match splitOnChar sep rest with
    | [] => [[c]]
    | h :: t => if c = sep then [] :: h :: t else (c :: h) :: t

/-- Python `s.split(sep, 1)` (used as `param.split('=', 1)` and
`item.split(':', 1)`): split at the first occurrence of the separator.
The callers only use it when the separator is present. -/
def splitFirst : List Char → Char → (List Char × List Char)
  | [], _ => ([], [])
  | c :: rest, sep =>
    if c = sep then ([], rest)
    else
      let p := splitFirst rest sep
      (c :: p.1, p.2)

/-! ## Python numeric literal parsing

`int(s)` and `float(s)` as used by the source, modelled exactly over ℚ:
optional surrounding whitespace, optional sign, decimal digits with
underscores between digits, optional fraction and exponent for `float`.
The IEEE specials `inf`/`nan` have no exact-rational counterpart and are
treated as parse failures. -/

/-- Numeric value of a decimal digit character. -/
def digitVal (c : Char) : ℕ := c.toNat - '0'.toNat

/-- After an initial digit: consume further digits, allowing `_` strictly
between digits (Python literal rule); an `_` not followed by a digit makes
the whole literal invalid (`none`). -/
def parseDigitsUGo : List Char → List ℕ → Option (List ℕ × List Char)
  | [], acc => some (acc, [])
  | c :: rest, acc =>
    if c.isDigit then parseDigitsUGo rest (acc ++ [digitVal c])
    else if c = '_' then
      match rest with
      | d :: rest2 =>
        if d.isDigit then parseDigitsUGo rest2 (acc ++ [digitVal d]) else none
      | [] => none
    else some (acc, c :: rest)

/-- A run of decimal digits with optional internal underscores; must start
with a digit. -/
def parseDigitsU (l : List Char) : Option (List ℕ × List Char) :=
  match l with
  | c :: rest => if c.isDigit then parseDigitsUGo rest [digitVal c] else none
  | [] => none

/-- Base-10 value of a digit list. -/
def natFromDigits (ds : List ℕ) : ℕ := ds.foldl (fun a d => 10 * a + d) 0

/-- Mantissa of a Python float literal: `digits`, `digits.`,
`digits.digits` or `.digits`; returns the digit string's value together
with the number of fraction digits. -/
def parseMantissa (l : List Char) : Option ((ℕ × ℕ) × List Char) :=
  match l with
  | '.' :: r =>
    match parseDigitsU r with
    | some (fs, r2) => some ((natFromDigits fs, fs.length), r2)
    | none => none
  | _ =>
    match parseDigitsU l with
    | some (ds, r1) =>
      match r1 with
      | '.' :: r2 =>
        match parseDigitsU r2 with
        | some (fs, r3) => some ((natFromDigits (ds ++ fs), fs.length), r3)
        | none => some ((natFromDigits ds, 0), r2)
      | _ => some ((natFromDigits ds, 0), r1)
    | none => none

/-- Optional exponent part `e`/`E`, optional sign, digits. -/
def parseExp (l : List Char) : Option (ℤ × List Char) :=
  match l with
  | c :: r =>
    if c = 'e' || c = 'E' then
      let (sgn, r2) : ℤ × List Char :=
        match r with
        | '+' :: r3 => (1, r3)
        | '-' :: r3 => (-1, r3)
        | r3 => (1, r3)
      match parseDigitsU r2 with
      | some (ds, r4) => some (sgn * (natFromDigits ds : ℤ), r4)
      | none => none
    else some (0, c :: r)
  | [] => some (0, [])

/-- Python `float(s)`, exactly over ℚ (see the conventions above).  The
value `sign · mantissa · 10^(exponent − fraction-length)` is assembled
with integer arithmetic and `mkRat` so that it evaluates inside the
kernel. -/
def pyParseFloat (l : List Char) : Option ℚ :=
  let t := pyStrip l
  let (sgn, t2) : ℤ × List Char :=
    match t with
    | '+' :: r => (1, r)
    | '-' :: r => (-1, r)
    | r => (1, r)
  match parseMantissa t2 with
  | some ((m, fl), r1) =>
    match parseExp r1 with
    | some (e, []) =>
      some (if 0 ≤ e - (fl : ℤ) then
              mkRat (sgn * (m : ℤ) * Int.pow 10 (e - (fl : ℤ)).toNat) 1
            else mkRat (sgn * (m : ℤ)) (Nat.pow 10 ((fl : ℤ) - e).toNat))
    | _ => none
  | none => none

/-- Python `int(s)` in base 10. -/
def pyParseInt (l : List Char) : Option ℤ :=
  let t := pyStrip l
  let (sgn, t2) : ℤ × List Char :=
    match t with
    | '+' :: r => (1, r)
    | '-' :: r => (-1, r)
    | r => (1, r)
  match parseDigitsU t2 with
  | some (ds, []) => some (sgn * (natFromDigits ds : ℤ))
  | _ => none

/-- `[float(x.strip()) for x in l.split(',')]` — all-or-nothing, as the
surrounding `try`/`except ValueError` makes it. -/
def parseFloatList (l : List Char) : Option (List ℚ) :=
  (splitOnChar ',' l).mapM (fun x => pyParseFloat (pyStrip x))

/-! ## `asset_mapper.py`: `split_top_level` (lines 35–54) -/

/-- One step of the bracket-depth bookkeeping over `(`,`)`,`[`,`]`,`{`,`}`
(the level is an integer: the source lets it go negative). -/
def levelStep (lvl : Int) (c : Char) : Int :=
  if c = '(' || c = '[' || c = '{' then lvl + 1
  else if c = ')' || c = ']' || c = '}' then lvl - 1
  else lvl

/-- The scanning loop of `split_top_level`. -/
def split_top_level_go : List Char → Int → List Char → List (List Char)
  | [], _, current => if current.isEmpty then [] else [current]
  | c :: rest, lvl, current =>
    let lvl2 := levelStep lvl c
    if c = ',' ∧ lvl2 = 0 then current :: split_top_level_go rest lvl2 []
    else split_top_level_go rest lvl2 (current ++ [c])

/-- `split_top_level(s)`: split on commas at bracket depth 0. -/
def split_top_level (l : List Char) : List (List Char) :=
  split_top_level_go l 0 []

/-! ## `asset_mapper.py`: the `Value` data model and `parse_value`
(lines 57–115) -/

/-- Parsed Python literal values produced by `parse_value`:
int, float, string, tuple, list, dict. -/
inductive Value where
  | int (n : ℤ)
  | float (q : ℚ)
  | str (s : String)
  | tup (vs : List Value)
  | list (vs : List Value)
  | dict (kvs : List (String × Value))

/-- Python's `s.startswith(a) and s.endswith(b)` for one-character `a`, `b`
(note both hold of a one-character string when `a = b`, exactly as in
Python). -/
def startsEnds (l : List Char) (a b : Char) : Bool :=
  l.head? = some a && l.getLast? = some b

/-- Quoted-string test of `parse_value` (line 68). -/
def isQuoted (l : List Char) : Bool :=
  startsEnds l '\'' '\'' || startsEnds l '"' '"'

/-- Dictionary insertion in source order: a repeated key overwrites in
place (CPython dict semantics), a new key is appended. -/
def dictInsert (m : List (String × Value)) (k : String) (v : Value) :
    List (String × Value) :=
  if m.any (fun p => p.1 = k) then
    m.map (fun p => if p.1 = k then (k, v) else p)
  else m ++ [(k, v)]

/-- Key normalization of `parse_dict` (line 100):
`key.strip().strip('"').strip("'").replace(' ', '_')`. -/
def normalizeKey (k : List Char) : List Char :=
  ((stripSet ['\''] (stripSet ['"'] (pyStrip k))).map
    (fun c => if c = ' ' then '_' else c))

/-- Combined size of a piece list: total character count plus piece
count (the termination measure for the item loops below). -/
def sumLenCount (items : List (List Char)) : ℕ :=
  (items.map List.length).sum + items.length

/-- The pieces a `split_top_level_go` call returns carry at most the
characters of `current` and the input, plus one bookkeeping unit per
piece boundary. -/
theorem split_top_level_go_sc :
    ∀ (l : List Char) (lvl : Int) (current : List Char),
      sumLenCount (split_top_level_go l lvl current) ≤
        current.length + l.length + 1 := by
  intro l
  induction l with
  | nil =>
    intro lvl current
    simp only [split_top_level_go]
    by_cases h : current.isEmpty
    · simp [h, sumLenCount]
    · simp [h, sumLenCount]
  | cons c rest ih =>
    intro lvl current
    simp only [split_top_level_go]
    by_cases h : c = ',' ∧ levelStep lvl c = 0
    · have := ih (levelStep lvl c) []
      simp only [if_pos h, sumLenCount, List.map_cons, List.sum_cons,
        List.length_cons, List.length_nil] at *
      omega
    · have := ih (levelStep lvl c) (current ++ [c])
      simp only [if_neg h, sumLenCount, List.length_append, List.length_cons,
        List.length_nil] at *
      omega

/-- Size bound for `split_top_level`. -/
theorem split_top_level_sc (l : List Char) :
    sumLenCount (split_top_level l) ≤ l.length + 1 := by
  have := split_top_level_go_sc l 0 []
  simpa [split_top_level] using this

/-- `split_top_level` of the empty string is empty. -/
theorem split_top_level_nil : split_top_level [] = [] := rfl

/-- `pyStrip` never lengthens a string. -/
theorem pyStrip_len_le (l : List Char) : (pyStrip l).length ≤ l.length := by
  unfold pyStrip
  have h1 : (l.dropWhile pyIsSpace).length ≤ l.length :=
    List.Sublist.length_le (List.dropWhile_sublist (l := l) (p := pyIsSpace))
  have h2 : ((l.dropWhile pyIsSpace).reverse.dropWhile pyIsSpace).length ≤
      (l.dropWhile pyIsSpace).reverse.length :=
    List.Sublist.length_le
      (List.dropWhile_sublist (l := (l.dropWhile pyIsSpace).reverse) (p := pyIsSpace))
  simp only [List.length_reverse] at *
  omega

/-- The part after the separator in `splitFirst` is shorter than the
input (or the input was empty). -/
theorem splitFirst_snd_len :
    ∀ (l : List Char) (c : Char), (splitFirst l c).2.length ≤ l.length := by
  intro l c
  induction l with
  | nil => simp [splitFirst]
  | cons a rest ih =>
    simp only [splitFirst]
    by_cases h : a = c
    · simp only [if_pos h, List.length_cons]; omega
    · simp only [if_neg h, List.length_cons]; omega

/-- A quoted string is non-empty. -/
theorem isQuoted_ne_nil {v : List Char} (h : isQuoted v = true) : v ≠ [] := by
  intro hnil
  subst hnil
  simp [isQuoted, startsEnds] at h

/-- A brace/paren/bracket-delimited string has length at least 2. -/
theorem startsEnds_two_le {v : List Char} {a b : Char} (hab : a ≠ b)
    (h : startsEnds v a b = true) : 2 ≤ v.length := by
  rcases v with _ | ⟨c, _ | ⟨d, t⟩⟩
  · simp [startsEnds] at h
  · simp only [startsEnds, List.head?_cons, List.getLast?_singleton,
      Option.some.injEq, Bool.and_eq_true, decide_eq_true_eq] at h
    exact absurd (h.1.symm.trans h.2) hab
  · simp only [List.length_cons]; omega

mutual

/-- `parse_value` (lines 57–88): dispatch on the leading/trailing
delimiter; quoted strings are unquoted and re-dispatched **only** through
the three structure parsers; otherwise numeric parse (`.` ⇒ float, else
int) with fallback to the raw string. -/
def parse_value (l : List Char) : Value :=
  let v := pyStrip l
  if startsEnds v '{' '}' then parse_dict v
  else if startsEnds v '(' ')' then parse_tuple v
  else if startsEnds v '[' ']' then parse_list v
  else if h4 : isQuoted v then
    let inner := pyStrip ((v.drop 1).dropLast)
    if startsEnds inner '{' '}' then parse_dict inner
    else if startsEnds inner '(' ')' then parse_tuple inner
    else if startsEnds inner '[' ']' then parse_list inner
    else .str (String.mk inner)
  else if v.contains '.' then
    match pyParseFloat v with
    | some q => .float q
    | none => .str (String.mk v)
  else
    match pyParseInt v with
    | some n => .int n
    | none => .str (String.mk v)
termination_by (l.length, 3)
decreasing_by
  · have hv := pyStrip_len_le l
    rw [Prod.lex_iff]; simp only []; omega
  · have hv := pyStrip_len_le l
    rw [Prod.lex_iff]; simp only []; omega
  · have hv := pyStrip_len_le l
    rw [Prod.lex_iff]; simp only []; omega
  all_goals
    have hv := pyStrip_len_le l
    have hq : 1 ≤ (pyStrip l).length :=
      List.length_pos.mpr (isQuoted_ne_nil h4)
    have hi := pyStrip_len_le (((pyStrip l).drop 1).dropLast)
    simp only [List.length_dropLast, List.length_drop] at hi
    rw [Prod.lex_iff]; simp only []; omega

/-- `parse_dict` (lines 91–103): strip the braces, split at top level,
split each item at the first `:`, normalize the key; items without `:`
are skipped. -/
def parse_dict (l : List Char) : Value :=
  let inner := pyStrip (((pyStrip l).drop 1).dropLast)
  .dict (parse_dict_go (split_top_level inner) [])
termination_by (l.length, 2)
decreasing_by
  · by_cases hi : pyStrip (((pyStrip l).drop 1).dropLast) = []
    · rw [hi, split_top_level_nil]
      rw [Prod.lex_iff]; simp only [sumLenCount, List.map_nil, List.sum_nil,
        List.length_nil]; omega
    · have hsc := split_top_level_sc (pyStrip (((pyStrip l).drop 1).dropLast))
      have h1 := pyStrip_len_le l
      have h2 := pyStrip_len_le (((pyStrip l).drop 1).dropLast)
      have h3 : 1 ≤ (pyStrip (((pyStrip l).drop 1).dropLast)).length :=
        List.length_pos.mpr hi
      simp only [List.length_dropLast, List.length_drop] at h2
      rw [Prod.lex_iff]; simp only []; omega

/-- The item loop of `parse_dict`. -/
def parse_dict_go : List (List Char) → List (String × Value) → List (String × Value)
  | [], acc => acc
  | item :: rest, acc =>
    if item.contains ':' then
      let kv := splitFirst item ':'
      parse_dict_go rest
        (dictInsert acc (String.mk (normalizeKey kv.1)) (parse_value (pyStrip kv.2)))
    else parse_dict_go rest acc
termination_by items _ => (sumLenCount items, 1)
decreasing_by
  · have h1 := pyStrip_len_le (splitFirst item ':').2
    have h2 := splitFirst_snd_len item ':'
    rw [Prod.lex_iff]; simp only [sumLenCount, List.map_cons, List.sum_cons,
      List.length_cons]; omega
  · rw [Prod.lex_iff]; simp only [sumLenCount, List.map_cons, List.sum_cons,
      List.length_cons]; omega
  · rw [Prod.lex_iff]; simp only [sumLenCount, List.map_cons, List.sum_cons,
      List.length_cons]; omega

/-- `parse_tuple` (lines 106–109). -/
def parse_tuple (l : List Char) : Value :=
  let inner := pyStrip (((pyStrip l).drop 1).dropLast)
  .tup (parse_items (split_top_level inner))
termination_by (l.length, 2)
decreasing_by
  · by_cases hi : pyStrip (((pyStrip l).drop 1).dropLast) = []
    · rw [hi, split_top_level_nil]
      rw [Prod.lex_iff]; simp only [sumLenCount, List.map_nil, List.sum_nil,
        List.length_nil]; omega
    · have hsc := split_top_level_sc (pyStrip (((pyStrip l).drop 1).dropLast))
      have h1 := pyStrip_len_le l
      have h2 := pyStrip_len_le (((pyStrip l).drop 1).dropLast)
      have h3 : 1 ≤ (pyStrip (((pyStrip l).drop 1).dropLast)).length :=
        List.length_pos.mpr hi
      simp only [List.length_dropLast, List.length_drop] at h2
      rw [Prod.lex_iff]; simp only []; omega

/-- `parse_list` (lines 112–115). -/
def parse_list (l : List Char) : Value :=
  let inner := pyStrip (((pyStrip l).drop 1).dropLast)
  .list (parse_items (split_top_level inner))
termination_by (l.length, 2)
decreasing_by
  · by_cases hi : pyStrip (((pyStrip l).drop 1).dropLast) = []
    · rw [hi, split_top_level_nil]
      rw [Prod.lex_iff]; simp only [sumLenCount, List.map_nil, List.sum_nil,
        List.length_nil]; omega
    · have hsc := split_top_level_sc (pyStrip (((pyStrip l).drop 1).dropLast))
      have h1 := pyStrip_len_le l
      have h2 := pyStrip_len_le (((pyStrip l).drop 1).dropLast)
      have h3 : 1 ≤ (pyStrip (((pyStrip l).drop 1).dropLast)).length :=
        List.length_pos.mpr hi
      simp only [List.length_dropLast, List.length_drop] at h2
      rw [Prod.lex_iff]; simp only []; omega

/-- Shared element loop of `parse_tuple` / `parse_list`. -/
def parse_items : List (List Char) → List Value
  | [] => []
  | item :: rest => parse_value item :: parse_items rest
termination_by items => (sumLenCount items, 1)
decreasing_by
  · rw [Prod.lex_iff]; simp only [sumLenCount, List.map_cons, List.sum_cons,
      List.length_cons]; omega
  · rw [Prod.lex_iff]; simp only [sumLenCount, List.map_cons, List.sum_cons,
      List.length_cons]; omega

end

/-! ## `asset_mapper.py`: `parse_module_call` (lines 7–32) -/

/-- A regex `\w` character (ASCII): letter, digit or underscore. -/
def isWordChar (c : Char) : Bool := c.isAlphanum || c = '_'

/-- The parameter loop of `parse_module_call` (lines 20–28): parameters
without `=` are skipped; otherwise split at the first `=`, trim, parse the
value with `parse_value` and store under the key. -/
def buildParams : List (List Char) → List (String × Value) → List (String × Value)
  | [], acc => acc
  | p :: rest, acc =>
    if p.contains '=' then
      let kv := splitFirst p '='
      buildParams rest
        (dictInsert acc (String.mk (pyStrip kv.1)) (parse_value (pyStrip kv.2)))
    else buildParams rest acc

/-- `parse_module_call` (lines 7–32).  The anchored regex
`(\w+)\((.*)\)$` with `re.DOTALL` matches the stripped input exactly when
it consists of a non-empty `\w`-run, immediately a `(`, arbitrary text,
and a final `)`; group 1 is the `\w`-run and group 2 everything between
the first `(` and the final `)`.  On no match the source returns
`(None, {})`.  (The enclosing `try`/`except` of the source never fires in
this model: every operation below is total.) -/
def parse_module_call (s : String) : Option String × List (String × Value) :=
  let t := pyStrip s.toList
  let name := t.takeWhile isWordChar
  let rest := t.dropWhile isWordChar
  if name ≠ [] ∧ rest.head? = some '(' ∧ rest.getLast? = some ')' ∧ 2 ≤ rest.length then
    (some (String.mk name), buildParams (split_top_level ((rest.drop 1).dropLast)) [])
  else (none, [])

/-! ## `asset_mapper.py` / `pose_fetcher.py`: the container registry -/

/-- One container record, with the fields `load_containers_dict`
(pose_fetcher.py lines 281–328) stores for each CSV row.  `position` and
`orientation` are float lists (exact rationals here); the remaining
fields are strings. -/
structure Container where
  id : String := ""
  aruco_id : String := "unknown"
  position : List ℚ := []
  orientation : List ℚ := []
  type : String := "unknown"
  content_name : String := "null"
  content_volume : String := "null"
  content_color : String := "null"
  active_status : String := "null"
  landmark : String := "null"

/-- Python `container.get(key, '')` on a record dict, stringified.  The
descriptor fields of the data model (`type`, `content_name`,
`content_color`, `content_volume`, `active_status`, `landmark`, plus `id`
and `aruco_id`) are strings; `position`/`orientation` are float lists
whose Python `str(...)` rendering is outside this model (no claim
constrains a descriptor on those two keys), so they are mapped to an
opaque marker. -/
def recordGet (c : Container) (k : String) : String :=
  if k = "id" then c.id
  else if k = "aruco_id" then c.aruco_id
  else if k = "type" then c.type
  else if k = "content_name" then c.content_name
  else if k = "content_volume" then c.content_volume
  else if k = "content_color" then c.content_color
  else if k = "active_status" then c.active_status
  else if k = "landmark" then c.landmark
  else if k = "position" ∨ k = "orientation" then "<float-list-repr>"
  else ""

/-- Python `str.lower()` on one ASCII character. -/
def pyLowerChar (c : Char) : Char :=
  if 'A' ≤ c ∧ c ≤ 'Z' then Char.ofNat (c.toNat + 32) else c

/-- Python `str.lower()` (ASCII). -/
def pyLower (s : String) : String := String.mk (s.toList.map pyLowerChar)

/-- The criteria of `match_container` (line 120): descriptor fields whose
value is not the sentinel `'null'` (the `None` case of the source has no
counterpart here: parsed descriptor values are strings). -/
def descCriteria (desc : List (String × String)) : List (String × String) :=
  desc.filter (fun p => p.2 ≠ "null")

/-- The per-record test of `match_container` (lines 122–128):
every criterion equals the record's field case-insensitively. -/
def containerMatches (desc : List (String × String)) (c : Container) : Bool :=
  (descCriteria desc).all (fun p => pyLower (recordGet c p.1) == pyLower p.2)

/-- `match_container` (lines 118–135): collect matching records; one
match returns it, zero returns `None`, several return the first. -/
def match_container (desc : List (String × String)) (containers : List Container) :
    Option Container :=
  let matching := containers.filter (containerMatches desc)
  if matching.length = 1 then matching.head?
  else if matching.length = 0 then none
  else matching.head?

/-- Descriptor lookup with default `''`
(`destination_container_desc.get('type', '')`, line 223). -/
def descGet (desc : List (String × String)) (k : String) : String :=
  ((desc.find? (fun p => p.1 == k)).map (fun p => p.2)).getD ""

/-- Slice of `process_module_sequence`: the pick/place container
parameters (lines 246–255) and the pour origin (lines 208–214) resolve a
descriptor to the matched record's id, or to `'unknown'` when nothing
matches. -/
def containerParamId (desc : List (String × String)) (containers : List Container) :
    String :=
  match match_container desc containers with
  | some c => c.id
  | none => "unknown"

/-- Slice of `process_module_sequence`: the pour destination
(lines 217–227).  Only here does a failed match fall back to the reserved
id `'active_container'` when the descriptor's `type` is
`"active container"` (case-insensitively). -/
def pourDestinationId (desc : List (String × String)) (containers : List Container) :
    String :=
  match match_container desc containers with
  | some c => c.id
  | none =>
    if pyLower (descGet desc "type") = "active container" then "active_container"
    else "unknown"

/-! ## `asset_mapper.py`: `split_module_calls` (lines 138–178) -/

/-- Python `ch.isalpha() or ch == '_'` — the identifier characters of
`split_module_calls` (line 151; digits are *not* included). -/
def identChar (c : Char) : Bool := c.isAlpha || c = '_'

/-- The capture loop of `split_module_calls` (lines 164–176): consume
characters, adjusting the nesting level on `(` and `)` **only**; stop
right after the `)` that returns the level to zero.  If the input ends
first, everything consumed so far is returned unclosed. -/
def captureCall : List Char → Int → List Char → List Char × List Char
  | [], _, acc => (acc, [])
  | c :: rest, lvl, acc =>
    if c = '(' then captureCall rest (lvl + 1) (acc ++ [c])
    else if c = ')' then
      if lvl - 1 = 0 then (acc ++ [c], rest)
      else captureCall rest (lvl - 1) (acc ++ [c])
    else captureCall rest lvl (acc ++ [c])

/-- The captured part extends the accumulator with a prefix of the input. -/
theorem captureCall_consumed :
    ∀ (l : List Char) (lvl : Int) (acc : List Char),
      ∃ consumed, (captureCall l lvl acc).1 = acc ++ consumed ∧
        l = consumed ++ (captureCall l lvl acc).2 := by
  intro l
  induction l with
  | nil => intro lvl acc; exact ⟨[], by simp [captureCall]⟩
  | cons c rest ih =>
    intro lvl acc
    simp only [captureCall]
    by_cases h1 : c = '('
    · simp only [if_pos h1]
      obtain ⟨cs, hc1, hc2⟩ := ih (lvl + 1) (acc ++ [c])
      exact ⟨c :: cs, by simp [hc1], by simp [← hc2]⟩
    · simp only [if_neg h1]
      by_cases h2 : c = ')'
      · simp only [if_pos h2]
        by_cases h3 : lvl - 1 = 0
        · simp only [if_pos h3]
          exact ⟨[c], by simp⟩
        · simp only [if_neg h3]
          obtain ⟨cs, hc1, hc2⟩ := ih (lvl - 1) (acc ++ [c])
          exact ⟨c :: cs, by simp [hc1], by simp [← hc2]⟩
      · simp only [if_neg h2]
        obtain ⟨cs, hc1, hc2⟩ := ih lvl (acc ++ [c])
        exact ⟨c :: cs, by simp [hc1], by simp [← hc2]⟩

/-- The capture loop consumes at least one character of a non-empty
input. -/
theorem captureCall_rest_lt :
    ∀ (l : List Char) (lvl : Int) (acc : List Char), l ≠ [] →
      (captureCall l lvl acc).2.length < l.length := by
  intro l
  induction l with
  | nil => intro lvl acc h; exact absurd rfl h
  | cons c rest ih =>
    intro lvl acc _
    simp only [captureCall]
    by_cases h1 : c = '('
    · simp only [if_pos h1]
      by_cases hr : rest = []
      · subst hr; simp [captureCall]
      · exact Nat.lt_trans (ih _ _ hr) (by simp)
    · simp only [if_neg h1]
      by_cases h2 : c = ')'
      · simp only [if_pos h2]
        by_cases h3 : lvl - 1 = 0
        · simp only [if_pos h3, List.length_cons]; omega
        · simp only [if_neg h3]
          by_cases hr : rest = []
          · subst hr; simp [captureCall]
          · exact Nat.lt_trans (ih _ _ hr) (by simp)
      · simp only [if_neg h2]
        by_cases hr : rest = []
        · subst hr; simp [captureCall]
        · exact Nat.lt_trans (ih _ _ hr) (by simp)

/-- The scanning loop of `split_module_calls` (lines 142–177): skip
whitespace, read a maximal identifier run, skip whitespace; if a `(`
follows, capture the call and emit `identifier ++ capture`; otherwise
resume scanning (a non-identifier character is skipped one at a time). -/
def smcGo (s : List Char) : List String :=
  match h : s.dropWhile pyIsSpace with
  | [] => []
  | c :: rest =>
    if hid : identChar c then
      match h2 : ((c :: rest).dropWhile identChar).dropWhile pyIsSpace with
      | '(' :: t =>
        String.mk ((c :: rest).takeWhile identChar ++
          (captureCall ('(' :: t) 0 []).1) ::
          smcGo (captureCall ('(' :: t) 0 []).2
      | [] => []
      | c2 :: t2 => smcGo (c2 :: t2)
    else smcGo rest
termination_by s.length
decreasing_by
  · have hd : (s.dropWhile pyIsSpace).length ≤ s.length :=
      List.Sublist.length_le (List.dropWhile_sublist (l := s) (p := pyIsSpace))
    rw [h] at hd
    have h1 : ((c :: rest).dropWhile identChar).length ≤ rest.length := by
      simp only [List.dropWhile_cons, if_pos hid]
      exact List.Sublist.length_le (List.dropWhile_sublist (l := rest) (p := identChar))
    have h2' : (((c :: rest).dropWhile identChar).dropWhile pyIsSpace).length ≤
        ((c :: rest).dropWhile identChar).length :=
      List.Sublist.length_le (List.dropWhile_sublist (p := pyIsSpace))
    have h3 := captureCall_rest_lt ('(' :: t) 0 [] (by simp)
    have h4 := congrArg List.length h2
    simp only [List.length_cons] at *
    omega
  · have hd : (s.dropWhile pyIsSpace).length ≤ s.length :=
      List.Sublist.length_le (List.dropWhile_sublist (l := s) (p := pyIsSpace))
    rw [h] at hd
    have h1 : ((c :: rest).dropWhile identChar).length ≤ rest.length := by
      simp only [List.dropWhile_cons, if_pos hid]
      exact List.Sublist.length_le (List.dropWhile_sublist (l := rest) (p := identChar))
    have h2' : (((c :: rest).dropWhile identChar).dropWhile pyIsSpace).length ≤
        ((c :: rest).dropWhile identChar).length :=
      List.Sublist.length_le (List.dropWhile_sublist (p := pyIsSpace))
    have h4 := congrArg List.length h2
    simp only [List.length_cons] at *
    omega
  · have hd : (s.dropWhile pyIsSpace).length ≤ s.length :=
      List.Sublist.length_le (List.dropWhile_sublist (l := s) (p := pyIsSpace))
    rw [h] at hd
    simp only [List.length_cons] at hd
    omega

/-- `split_module_calls` (lines 138–178). -/
def split_module_calls (s : String) : List String :=
  smcGo s.toList

/-! ## `pose_fetcher.py`: `split_args` (lines 26–60) -/

/-- The character loop of `split_args`: split on top-level commas,
tracking parenthesis nesting and single/double quoting; every argument is
stripped; a trailing accumulated argument is kept only if non-empty
before stripping. -/
def split_args_go : List Char → List Char → Int → Bool → Char → List (List Char)
  | [], current, _, _, _ => if current.isEmpty then [] else [pyStrip current]
  | c :: rest, current, lvl, inQ, qc =>
    if c = '"' ∨ c = '\'' then
      if inQ ∧ c = qc then split_args_go rest (current ++ [c]) lvl false qc
      else if ¬ inQ then split_args_go rest (current ++ [c]) lvl true c
      else split_args_go rest (current ++ [c]) lvl inQ qc
    else if ¬ inQ then
      if c = ',' ∧ lvl = 0 then pyStrip current :: split_args_go rest [] lvl inQ qc
      else if c = '(' then split_args_go rest (current ++ [c]) (lvl + 1) inQ qc
      else if c = ')' then split_args_go rest (current ++ [c]) (lvl - 1) inQ qc
      else split_args_go rest (current ++ [c]) lvl inQ qc
    else split_args_go rest (current ++ [c]) lvl inQ qc

/-- `split_args(s)` (lines 26–60). -/
def split_args (l : List Char) : List (List Char) :=
  split_args_go l [] 0 false ' '

/-! ## `pose_fetcher.py`: quaternion-to-Euler conversion (lines 240–278) -/

/-- C-library `atan2(y, x)` (what Python's `math.atan2` calls), written
with `Real.arctan`. -/
noncomputable def myAtan2 (y x : ℝ) : ℝ :=
  if 0 < x then Real.arctan (y / x)
  else if x < 0 then
    (if 0 ≤ y then Real.arctan (y / x) + Real.pi else Real.arctan (y / x) - Real.pi)
  else if 0 < y then Real.pi / 2
  else if y < 0 then -(Real.pi / 2)
  else 0

/-- The pitch computation (lines 258–262): `math.copysign(pi/2, sinp)`
when `abs(sinp) >= 1`, else `asin(sinp)`.  The sine argument is an exact
product of the quaternion components, hence rational here. -/
noncomputable def pitchOf (sinp : ℚ) : ℝ :=
  if 1 ≤ |sinp| then (if sinp < 0 then -(Real.pi / 2) else Real.pi / 2)
  else Real.arcsin (sinp : ℝ)

/-- `quaternion_to_euler(q)` (lines 240–278): unpack `[qx, qy, qz, qw]`
(a `ValueError` — an `Except` failure — for any other arity), apply the
standard roll/pitch/yaw formulas, and the degenerate fallback
(lines 274–276): a triple that is exactly `(0, 0, 0)` becomes
`(0, 0, 1)`. -/
noncomputable def quaternion_to_euler (q : List ℚ) : Except String (ℝ × ℝ × ℝ) :=
  match q with
  | [qx, qy, qz, qw] =>
    let roll : ℝ := myAtan2 ((2 * (qw * qx + qy * qz) : ℚ) : ℝ)
      ((1 - 2 * (qx * qx + qy * qy) : ℚ) : ℝ)
    let pitch : ℝ := pitchOf (2 * (qw * qy - qz * qx))
    let yaw : ℝ := myAtan2 ((2 * (qw * qz + qx * qy) : ℚ) : ℝ)
      ((1 - 2 * (qy * qy + qz * qz) : ℚ) : ℝ)
    if roll = 0 ∧ pitch = 0 ∧ yaw = 0 then .ok (0, 0, 1) else .ok (roll, pitch, yaw)
  | _ => .error "ValueError: values to unpack"

/-! ## `pose_fetcher.py`: `process_pose_sequence` (lines 62–238) -/

/-- Python `round(x, 3)` on an exactly-rational value.  (Mathlib's
`round` is round-half-up; Python rounds half to even — the difference
shows only at exact half-thousandths, which nothing here produces.) -/
def round3q (x : ℚ) : ℚ := (round (x * 1000) : ℤ) / 1000

/-- Python `round(x, 3)` on a real (Euler-angle) value. -/
noncomputable def round3r (x : ℝ) : ℝ := ((round (x * 1000) : ℤ) : ℝ) / 1000

/-- Decimal digit characters of a natural number (Python `str(n)` inside
the f-strings `f"pose{n}"` / `f"error_pose{n}"`). -/
def natDigits (n : ℕ) : List Char :=
  if n < 10 then [Char.ofNat (48 + n)]
  else natDigits (n / 10) ++ [Char.ofNat (48 + n % 10)]
termination_by n
decreasing_by exact Nat.div_lt_self (by omega) (by omega)

/-- The pose label written into the pose table: `f"pose{n}"` or
`f"error_pose{n}"`. -/
def mkLabel (isErr : Bool) (n : ℕ) : String :=
  String.mk ((if isErr then "error_pose" else "pose").toList ++ natDigits n)

/-- One entry of the `Poses` table: a labelled 6-DOF pose (positions are
parsed decimals, angles come from the conversion), or an error
placeholder `{'error': msg}`. -/
inductive PoseEntry where
  | pose (x y z : ℚ) (roll pitch yaw : ℝ)
  | err (msg : String)

/-- One element of the `targets` sequence: a string (pose label,
`'grasp'`, `'release'`) or a float (the pour wrist rotations). -/
inductive Target where
  | str (s : String)
  | num (q : ℚ)
deriving DecidableEq

/-- The final document (`final_output`, lines 233–236). -/
structure Output where
  Poses : List (String × PoseEntry)
  targets : List Target

/-- The running state of one synthesis run: the (mutated) containers
dict, the accumulating pose table and target list, and the pose
counter. -/
structure SynthState where
  containers : List (String × Container)
  poses : List (String × PoseEntry)
  targets : List Target
  counter : ℕ

/-- `containers_dict.get(container_id)`. -/
def dictGet (m : List (String × Container)) (k : String) : Option Container :=
  (m.find? (fun p => p.1 == k)).map (fun p => p.2)

/-- In-place mutation of the record stored under a key (Python mutates
the dict value through the reference returned by `.get`). -/
def dictSet : List (String × Container) → String → Container → List (String × Container)
  | [], _, _ => []
  | (k2, c2) :: rest, k, c =>
    if k2 = k then (k2, c) :: rest else (k2, c2) :: dictSet rest k c

/-- Python list indexing `l[i]` on a float list: `IndexError` when out of
range. -/
def getQ (l : List ℚ) (i : ℕ) : Except String ℚ :=
  match l.get? i with
  | some x => .ok x
  | none => .error "list index out of range"

/-- The `new_orientation` computation of the Place branch
(lines 133–144): a third argument parses to a float list, a parse
failure or an absent argument falls back to the default `[0, 0, 1]`. -/
def placeOrientation (restArgs : List (List Char)) : List ℚ :=
  match restArgs with
  | a2 :: _ => (parseFloatList (stripSet ['(', ')'] a2)).getD [0, 0, 1]
  | [] => [0, 0, 1]

/-- The roll/pitch/yaw selection of the Place branch (lines 149–157):
3 components are already Euler angles, 4 are a quaternion to convert,
anything else falls back to `(0, 0, 1)`. -/
noncomputable def placeRpy (new_orientation : List ℚ) : Except String (ℝ × ℝ × ℝ) :=
  match new_orientation with
  | [r, p, y] => .ok ((r : ℝ), (p : ℝ), (y : ℝ))
  | [qa, qb, qc, qd] => quaternion_to_euler [qa, qb, qc, qd]
  | _ => .ok (0, 0, 1)

/-- The body of the `for module_call in module_calls` loop of
`process_pose_sequence` (lines 81–230), one line at a time.  Error
entries and the `continue` statements are modelled exactly; unhandled
Python exceptions (bad unpack arity in `quaternion_to_euler`, list
`IndexError`) abort via `Except.error`. -/
noncomputable def processLine (st : SynthState) (line : List Char) :
    Except String SynthState :=
  if ("Pick(".toList.isPrefixOf line ∧ line.getLast? = some ')') then
    match dictGet st.containers (String.mk (pyStrip ((line.drop 5).dropLast))) with
    | some container =>
      do
        let rpy ← quaternion_to_euler
          (if container.orientation.length < 4 then [0, 0, 0, 1]
           else container.orientation)
        let x ← getQ container.position 0
        let y ← getQ container.position 1
        let z ← getQ container.position 2
        pure { st with
          poses := st.poses ++ [(mkLabel false st.counter,
            .pose (round3q x) (round3q y) (round3q z)
              (round3r rpy.1) (round3r rpy.2.1) (round3r rpy.2.2))],
          targets := st.targets ++ [.str (mkLabel false st.counter), .str "grasp"],
          counter := st.counter + 1 }
    | none =>
      .ok { st with
        poses := st.poses ++ [(mkLabel true st.counter,
          .err ("Error: Container " ++ String.mk (pyStrip ((line.drop 5).dropLast)) ++
            " not found."))],
        counter := st.counter + 1 }
  else if ("Place(".toList.isPrefixOf line ∧ line.getLast? = some ')') then
    match split_args (pyStrip ((line.drop 6).dropLast)) with
    | a0 :: a1 :: restArgs =>
      match parseFloatList (stripSet ['(', ')'] a1) with
      | none => .ok st
      | some new_position =>
        match dictGet st.containers (String.mk a0) with
        | some container =>
          do
            let rpy ← placeRpy (placeOrientation restArgs)
            let x ← getQ new_position 0
            let y ← getQ new_position 1
            let z ← getQ new_position 2
            pure { st with
              containers := dictSet st.containers (String.mk a0)
                { container with
                  position := new_position
                  orientation := placeOrientation restArgs },
              poses := st.poses ++ [(mkLabel false st.counter,
                .pose (round3q x) (round3q y) (round3q z)
                  (round3r rpy.1) (round3r rpy.2.1) (round3r rpy.2.2))],
              targets := st.targets ++ [.str (mkLabel false st.counter), .str "release"],
              counter := st.counter + 1 }
        | none =>
          .ok { st with
            poses := st.poses ++ [(mkLabel true st.counter,
              .err ("Error: Container " ++ String.mk a0 ++ " not found."))],
            counter := st.counter + 1 }
    | _ => .ok st
  else if ("pour(".toList.isPrefixOf line ∧ line.getLast? = some ')') then
    match split_args (pyStrip ((line.drop 5).dropLast)) with
    | a0 :: a1 :: _ =>
      match dictGet st.containers (String.mk a1) with
      | some dest =>
        do
          let rpy ← quaternion_to_euler
            (if dest.orientation.length < 4 then [0, 0, 0, 1] else dest.orientation)
          let x ← getQ dest.position 0
          let y ← getQ dest.position 1
          let z ← getQ dest.position 2
          pure { st with
            poses := st.poses ++ [(mkLabel false st.counter,
              .pose (round3q x) (round3q y) (round3q z)
                (round3r rpy.1) (round3r rpy.2.1) (round3r rpy.2.2))],
            targets := st.targets ++ [.str (mkLabel false st.counter),
              .num (157 / 100), .num (-(157 / 100))],
            counter := st.counter + 1 }
      | none =>
        .ok { st with
          poses := st.poses ++ [(mkLabel true st.counter,
            .err ("Error: Original container " ++ String.mk a0 ++ " not found."))],
          counter := st.counter + 1 }
    | _ => .ok st
  else
    .ok { st with
      poses := st.poses ++ [(mkLabel true st.counter,
        .err ("Error: Unknown module call '" ++ String.mk line ++ "'"))],
      counter := st.counter + 1 }

/-- The whole loop over the normalized lines. -/
noncomputable def processLines : List (List Char) → SynthState → Except String SynthState
  | [], st => .ok st
  | l :: ls, st =>
    match processLine st l with
    | .ok st2 => processLines ls st2
    | .error e => .error e

/-- `process_pose_sequence(module_sequence, containers_dict)`
(lines 62–238): strip and split the input into non-blank stripped lines,
run the loop from a fresh state with pose counter 1, and package
`Poses`/`targets`. -/
noncomputable def process_pose_sequence (module_sequence : String)
    (containers_dict : List (String × Container)) : Except String Output :=
  let module_calls :=
    ((splitOnChar '\n' (pyStrip module_sequence.toList)).map pyStrip).filter
      (fun l => ¬ l.isEmpty)
  match processLines module_calls
      { containers := containers_dict, poses := [], targets := [], counter := 1 } with
  | .ok st => .ok { Poses := st.poses, targets := st.targets }
  | .error e => .error e

/-! ## General facts about the string primitives -/

/-- The head of a `dropWhile` residue fails the predicate. -/
theorem head?_dropWhile_false (p : Char → Bool) :
    ∀ (l : List Char) (c : Char), (l.dropWhile p).head? = some c → p c = false := by
  intro l
  induction l with
  | nil => intro c h; simp at h
  | cons a t ih =>
    intro c h
    by_cases ha : p a = true
    · rw [List.dropWhile_cons, if_pos ha] at h
      exact ih c h
    · rw [List.dropWhile_cons, if_neg ha] at h
      simp only [List.head?_cons, Option.some.injEq] at h
      simp only [Bool.not_eq_true] at ha
      exact h ▸ ha

/-- A non-empty `dropWhile` residue keeps the last element. -/
theorem getLast?_dropWhile (p : Char → Bool) :
    ∀ (l : List Char), l.dropWhile p ≠ [] → (l.dropWhile p).getLast? = l.getLast? := by
  intro l
  induction l with
  | nil => intro h; simp [List.dropWhile] at h
  | cons a t ih =>
    intro h
    by_cases ha : p a
    · have ht : t.dropWhile p ≠ [] := by
        simpa [List.dropWhile_cons, ha] using h
      have ht2 : t ≠ [] := by
        intro hnil; rw [hnil] at ht; simp [List.dropWhile] at ht
      rw [List.dropWhile_cons, if_pos ha, ih ht]
      rcases t with _ | ⟨b, t2⟩
      · exact absurd rfl ht2
      · simp [List.getLast?_cons_cons]
    · simp [List.dropWhile_cons, ha]

/-- A string whose first and last characters are not whitespace is fixed
by `pyStrip` (also covers the empty string). -/
theorem pyStrip_eq_self {l : List Char}
    (h1 : ∀ c, l.head? = some c → pyIsSpace c = false)
    (h2 : ∀ c, l.getLast? = some c → pyIsSpace c = false) :
    pyStrip l = l := by
  rcases l with _ | ⟨a, t⟩
  · rfl
  · have ha : pyIsSpace a = false := h1 a rfl
    unfold pyStrip
    rw [List.dropWhile_cons, if_neg (by rw [ha]; exact fun h => by cases h)]
    rcases hlast : (a :: t).getLast? with _ | c
    · simp at hlast
    · have hc : pyIsSpace c = false := h2 c hlast
      have hrev : (a :: t).reverse.head? = some c := by
        rw [List.head?_reverse]; exact hlast
      rcases hr : (a :: t).reverse with _ | ⟨b, r⟩
      · simp at hr
      · rw [hr] at hrev
        simp only [List.head?_cons, Option.some.injEq] at hrev
        subst hrev
        rw [List.dropWhile_cons, if_neg (by rw [hc]; exact fun h => by cases h)]
        rw [← hr, List.reverse_reverse]

/-- The head of `pyStrip l` is not whitespace. -/
theorem pyStrip_head_not_space (l : List Char) :
    ∀ c, (pyStrip l).head? = some c → pyIsSpace c = false := by
  intro c h
  unfold pyStrip at h
  rw [List.head?_reverse] at h
  set B := ((l.dropWhile pyIsSpace).reverse.dropWhile pyIsSpace) with hB
  have hBne : B ≠ [] := by
    intro hnil; rw [hnil] at h; simp at h
  rw [getLast?_dropWhile pyIsSpace _ hBne] at h
  rw [List.getLast?_reverse] at h
  exact head?_dropWhile_false pyIsSpace l c h

/-- The last character of `pyStrip l` is not whitespace. -/
theorem pyStrip_getLast_not_space (l : List Char) :
    ∀ c, (pyStrip l).getLast? = some c → pyIsSpace c = false := by
  intro c h
  unfold pyStrip at h
  rw [List.getLast?_reverse] at h
  exact head?_dropWhile_false pyIsSpace _ c h

/-- `pyStrip` is idempotent. -/
theorem pyStrip_idem (l : List Char) : pyStrip (pyStrip l) = pyStrip l :=
  pyStrip_eq_self (pyStrip_head_not_space l) (pyStrip_getLast_not_space l)

/-- `isPrefixOf` decomposes the longer list. -/
theorem isPrefixOf_exists :
    ∀ (p l : List Char), p.isPrefixOf l = true → ∃ t, l = p ++ t := by
  intro p
  induction p with
  | nil => intro l _; exact ⟨l, rfl⟩
  | cons a p' ih =>
    intro l h
    rcases l with _ | ⟨b, l'⟩
    · simp [List.isPrefixOf] at h
    · simp only [List.isPrefixOf, Bool.and_eq_true, beq_iff_eq] at h
      obtain ⟨rfl, h2⟩ := h
      obtain ⟨t, rfl⟩ := ih l' h2
      exact ⟨t, rfl⟩

/-- A list is a prefix of itself followed by anything. -/
theorem isPrefixOf_append (p t : List Char) : p.isPrefixOf (p ++ t) = true := by
  induction p with
  | nil => simp [List.isPrefixOf]
  | cons a p' ih => simp [List.isPrefixOf, ih]

/-- `takeWhile` runs through a block that satisfies the predicate and
stops at a first failing character. -/
theorem takeWhile_append_stop {p : Char → Bool} :
    ∀ (l1 : List Char) {c : Char} (l2 : List Char),
      (∀ x ∈ l1, p x = true) → p c = false →
      (l1 ++ c :: l2).takeWhile p = l1 ∧ (l1 ++ c :: l2).dropWhile p = c :: l2 := by
  intro l1
  induction l1 with
  | nil =>
    intro c l2 _ hc
    constructor
    · simp [List.takeWhile_cons, hc]
    · simp [List.dropWhile_cons, hc]
  | cons a t ih =>
    intro c l2 h hc
    have ha : p a = true := h a (by simp)
    have := ih l2 (fun x hx => h x (by simp [hx])) hc
    constructor
    · simp only [List.cons_append, List.takeWhile_cons, ha, if_true, this.1]
    · simp only [List.cons_append, List.dropWhile_cons, ha, if_true, this.2]

/-- Word characters are not whitespace. -/
theorem isWordChar_not_space {c : Char} (h : isWordChar c = true) :
    pyIsSpace c = false := by
  by_contra hs
  simp only [Bool.not_eq_false] at hs
  unfold pyIsSpace at hs
  simp only [Bool.or_eq_true, decide_eq_true_eq] at hs
  rcases hs with ((((rfl | rfl) | rfl) | rfl) | rfl) | rfl <;> exact absurd h (by decide)

/-! ## Claims about `parse_value`, `parse_module_call` and `split_module_calls` -/

theorem startsEnds_head_ne {X : List Char} {a b a' b' : Char}
    (h : startsEnds X a b = true) (hne : a ≠ a') : startsEnds X a' b' = false := by
  unfold startsEnds at *
  simp only [Bool.and_eq_true, decide_eq_true_eq] at h
  simp [h.1, Option.some.injEq, hne]

theorem parse_value_quoted_aux (q : Char) (s : List Char)
    (hqs : pyIsSpace q = false)
    (hd : startsEnds (q :: (s ++ [q])) '{' '}' = false)
    (ht : startsEnds (q :: (s ++ [q])) '(' ')' = false)
    (hb : startsEnds (q :: (s ++ [q])) '[' ']' = false)
    (hiq : isQuoted (q :: (s ++ [q])) = true) :
    ((startsEnds (pyStrip s) '{' '}' || startsEnds (pyStrip s) '(' ')' ||
      startsEnds (pyStrip s) '[' ']') = true →
      parse_value (q :: (s ++ [q])) = parse_value (pyStrip s)) ∧
    ((startsEnds (pyStrip s) '{' '}' || startsEnds (pyStrip s) '(' ')' ||
      startsEnds (pyStrip s) '[' ']') = false →
      parse_value (q :: (s ++ [q])) = .str (String.mk (pyStrip s))) := by
  have hh : (q :: (s ++ [q])).head? = some q := rfl
  have hl : (q :: (s ++ [q])).getLast? = some q := by
    rw [← List.cons_append]; exact List.getLast?_concat _
  have hstrip : pyStrip (q :: (s ++ [q])) = q :: (s ++ [q]) := by
    apply pyStrip_eq_self
    · intro c hc; rw [hh] at hc; injection hc with hc; rw [← hc]; exact hqs
    · intro c hc; rw [hl] at hc; injection hc with hc; rw [← hc]; exact hqs
  have hlhs : parse_value (q :: (s ++ [q])) =
      (if startsEnds (pyStrip s) '{' '}' = true then parse_dict (pyStrip s)
       else if startsEnds (pyStrip s) '(' ')' = true then parse_tuple (pyStrip s)
       else if startsEnds (pyStrip s) '[' ']' = true then parse_list (pyStrip s)
       else .str (String.mk (pyStrip s))) := by
    rw [parse_value]
    simp only [hstrip, hd, ht, hb, hiq, List.drop_one, List.tail_cons,
      List.dropLast_concat, if_false, dite_true, Bool.false_eq_true, dite_eq_ite, if_true]
  constructor
  · intro hbr
    rw [hlhs, parse_value]
    simp only [pyStrip_idem]
    simp only [Bool.or_eq_true] at hbr
    rcases hbr with (hD | hT) | hB
    · simp only [hD, if_true]
    · have hD : startsEnds (pyStrip s) '{' '}' = false :=
        startsEnds_head_ne hT (by decide)
      simp only [hD, hT, if_true, Bool.false_eq_true, if_false]
    · have hD : startsEnds (pyStrip s) '{' '}' = false :=
        startsEnds_head_ne hB (by decide)
      have hT : startsEnds (pyStrip s) '(' ')' = false :=
        startsEnds_head_ne hB (by decide)
      simp only [hD, hT, hB, if_true, Bool.false_eq_true, if_false]
  · intro hbr
    simp only [Bool.or_eq_false_iff] at hbr
    rw [hlhs]
    simp only [hbr.1.1, hbr.1.2, hbr.2, Bool.false_eq_true, if_false]

theorem C3_counterexample :
    parse_value ("'5'".toList) = Value.str "5" ∧ parse_value ("5".toList) = Value.int 5 ∧
    parse_value ("'5'".toList) ≠ parse_value ("5".toList) := by
  have e1 : parse_value ("'5'".toList) = Value.str "5" := by unfold parse_value; rfl
  have e2 : parse_value ("5".toList) = Value.int 5 := by unfold parse_value; rfl
  exact ⟨e1, e2, by rw [e1, e2]; intro h; exact Value.noConfusion h⟩

theorem C3_quoted_redispatch (q : Char) (s : List Char) (hq : q = '\'' ∨ q = '"') :
    ((startsEnds (pyStrip s) '{' '}' || startsEnds (pyStrip s) '(' ')' ||
      startsEnds (pyStrip s) '[' ']') = true →
      parse_value (q :: (s ++ [q])) = parse_value (pyStrip s)) ∧
    ((startsEnds (pyStrip s) '{' '}' || startsEnds (pyStrip s) '(' ')' ||
      startsEnds (pyStrip s) '[' ']') = false →
      parse_value (q :: (s ++ [q])) = .str (String.mk (pyStrip s))) := by
  have hl : ∀ (r : Char), (r :: (s ++ [r])).getLast? = some r := by
    intro r; rw [← List.cons_append]; exact List.getLast?_concat _
  rcases hq with rfl | rfl
  · exact parse_value_quoted_aux _ s rfl (by simp [startsEnds]) (by simp [startsEnds])
      (by simp [startsEnds]) (by simp [isQuoted, startsEnds, hl '\''])
  · exact parse_value_quoted_aux _ s rfl (by simp [startsEnds]) (by simp [startsEnds])
      (by simp [startsEnds]) (by simp [isQuoted, startsEnds, hl '"'])

theorem C3_quoted_redispatch_witness :
    ('\'' = '\'' ∨ '\'' = '"') ∧
    (startsEnds (pyStrip "{a: 1}".toList) '{' '}' ||
      startsEnds (pyStrip "{a: 1}".toList) '(' ')' ||
      startsEnds (pyStrip "{a: 1}".toList) '[' ']') = true ∧
    parse_value ('\'' :: ("{a: 1}".toList ++ ['\''])) = parse_value (pyStrip "{a: 1}".toList) :=
  ⟨Or.inl rfl, rfl, (C3_quoted_redispatch '\'' "{a: 1}".toList (Or.inl rfl)).1 rfl⟩

theorem buildParams_skip (p : List Char) (hp : p.contains '=' = false) :
    ∀ (ps qs : List (List Char)) (acc : List (String × Value)),
      buildParams (ps ++ p :: qs) acc = buildParams (ps ++ qs) acc := by
  intro ps
  induction ps with
  | nil =>
    intro qs acc
    simp only [List.nil_append, buildParams, hp, Bool.false_eq_true, if_false]
  | cons a t ih =>
    intro qs acc
    simp only [List.cons_append, buildParams]
    split
    · exact ih qs _
    · exact ih qs _

theorem parse_module_call_shape (name mid : List Char)
    (hne : name ≠ []) (hword : ∀ c ∈ name, isWordChar c = true) :
    parse_module_call (String.mk (name ++ '(' :: (mid ++ [')']))) =
      (some (String.mk name), buildParams (split_top_level mid) []) := by
  rcases name with _ | ⟨c0, nt⟩
  · exact absurd rfl hne
  have hg : ((c0 :: nt) ++ '(' :: (mid ++ [')'])).getLast? = some ')' := by
    rw [show (c0 :: nt) ++ '(' :: (mid ++ [')']) = ((c0 :: nt) ++ '(' :: mid) ++ [')'] by simp]
    exact List.getLast?_concat _
  have hstrip : pyStrip ((c0 :: nt) ++ '(' :: (mid ++ [')'])) =
      (c0 :: nt) ++ '(' :: (mid ++ [')']) := by
    apply pyStrip_eq_self
    · intro c hc
      simp only [List.cons_append, List.head?_cons, Option.some.injEq] at hc
      rw [← hc]; exact isWordChar_not_space (hword c0 (by simp))
    · intro c hc
      rw [hg] at hc; injection hc with hc; rw [← hc]; rfl
  have htw := takeWhile_append_stop (p := isWordChar) (c := '(') (c0 :: nt)
    (mid ++ [')']) hword (by rfl)
  unfold parse_module_call
  simp only [String.toList, hstrip, htw.1, htw.2]
  rw [if_pos]
  · simp only [List.drop_one, List.tail_cons, List.dropLast_concat]
  · refine ⟨by simp, by simp, ?_, ?_⟩
    · rw [show ('(' :: (mid ++ [')'])) = ('(' :: mid) ++ [')'] by simp]
      exact List.getLast?_concat _
    · simp only [List.length_cons, List.length_append, List.length_cons,
        List.length_nil]
      omega

theorem captureCall_spec : ∀ (l : List Char) (lvl : Int) (acc : List Char),
    (captureCall l lvl acc).2 ≠ [] →
    ∃ consumed, (captureCall l lvl acc).1 = acc ++ consumed ∧
      l = consumed ++ (captureCall l lvl acc).2 ∧
      consumed.getLast? = some ')' ∧
      (consumed.count '(' : Int) + lvl = consumed.count ')' := by
  intro l
  induction l with
  | nil => intro lvl acc h; exact absurd rfl h
  | cons c rest ih =>
    intro lvl acc h
    simp only [captureCall] at h ⊢
    by_cases h1 : c = '('
    · simp only [if_pos h1] at h ⊢
      obtain ⟨cs, hc1, hc2, hc3, hc4⟩ := ih (lvl + 1) (acc ++ [c]) h
      have hcsne : cs ≠ [] := by intro hnil; rw [hnil] at hc3; simp at hc3
      refine ⟨c :: cs, by simp [hc1], by simp [← hc2], ?_, ?_⟩
      · rcases cs with _ | ⟨d, ds⟩
        · exact absurd rfl hcsne
        · simpa [List.getLast?_cons_cons] using hc3
      · subst h1
        rw [List.count_cons_self, List.count_cons_of_ne (by decide)]
        push_cast
        omega
    · simp only [if_neg h1] at h ⊢
      by_cases h2 : c = ')'
      · simp only [if_pos h2] at h ⊢
        by_cases h3 : lvl - 1 = 0
        · simp only [if_pos h3] at h ⊢
          refine ⟨[c], by simp, by simp, by simp [h2], ?_⟩
          subst h2
          have e1 : ([')'] : List Char).count '(' = 0 := by decide
          have e2 : ([')'] : List Char).count ')' = 1 := by decide
          rw [e1, e2]
          push_cast
          omega
        · simp only [if_neg h3] at h ⊢
          obtain ⟨cs, hc1, hc2, hc3, hc4⟩ := ih (lvl - 1) (acc ++ [c]) h
          have hcsne : cs ≠ [] := by intro hnil; rw [hnil] at hc3; simp at hc3
          refine ⟨c :: cs, by simp [hc1], by simp [← hc2], ?_, ?_⟩
          · rcases cs with _ | ⟨d, ds⟩
            · exact absurd rfl hcsne
            · simpa [List.getLast?_cons_cons] using hc3
          · subst h2
            rw [List.count_cons_self, List.count_cons_of_ne (by decide)]
            push_cast
            omega
      · simp only [if_neg h2] at h ⊢
        obtain ⟨cs, hc1, hc2, hc3, hc4⟩ := ih lvl (acc ++ [c]) h
        have hcsne : cs ≠ [] := by intro hnil; rw [hnil] at hc3; simp at hc3
        refine ⟨c :: cs, by simp [hc1], by simp [← hc2], ?_, ?_⟩
        · rcases cs with _ | ⟨d, ds⟩
          · exact absurd rfl hcsne
          · simpa [List.getLast?_cons_cons] using hc3
        · rw [List.count_cons_of_ne (Ne.symm h1), List.count_cons_of_ne (Ne.symm h2)]
          exact hc4

theorem smcGo_eq_nil {x : List Char} (h : x.dropWhile pyIsSpace = []) :
    smcGo x = [] := by
  rw [smcGo]
  split
  · rfl
  · next c rest heq => rw [h] at heq; exact List.noConfusion heq

theorem smcGo_eq_capture {x : List Char} {c : Char} {rest t : List Char}
    (h : x.dropWhile pyIsSpace = c :: rest) (hid : identChar c = true)
    (h2 : ((c :: rest).dropWhile identChar).dropWhile pyIsSpace = '(' :: t) :
    smcGo x = String.mk ((c :: rest).takeWhile identChar ++
      (captureCall ('(' :: t) 0 []).1) :: smcGo (captureCall ('(' :: t) 0 []).2 := by
  rw [smcGo]
  split
  · next heq => rw [h] at heq; exact List.noConfusion heq
  · next c' rest' heq =>
    rw [h] at heq
    injection heq with e1 e2
    subst e1; subst e2
    rw [dif_pos hid]
    split
    · next t' heq2 =>
      rw [h2] at heq2
      injection heq2 with _ e
      subst e
      rfl
    · next heq2 => rw [h2] at heq2; exact List.noConfusion heq2
    · next c2 t2 hne heq2 =>
      rw [h2] at heq2
      injection heq2 with e1 e2
      exact absurd e1.symm (fun he => hne he)

theorem smcGo_eq_stop {x : List Char} {c : Char} {rest : List Char}
    (h : x.dropWhile pyIsSpace = c :: rest) (hid : identChar c = true)
    (h2 : ((c :: rest).dropWhile identChar).dropWhile pyIsSpace = []) :
    smcGo x = [] := by
  rw [smcGo]
  split
  · next heq => rfl
  · next c' rest' heq =>
    rw [h] at heq
    injection heq with e1 e2
    subst e1; subst e2
    rw [dif_pos hid]
    split
    · next t' heq2 => rw [h2] at heq2; exact List.noConfusion heq2.symm
    · rfl
    · next c2 t2 hne heq2 => rw [h2] at heq2; exact List.noConfusion heq2.symm

theorem smcGo_eq_skip2 {x : List Char} {c : Char} {rest : List Char} {c2 : Char}
    {t2 : List Char}
    (h : x.dropWhile pyIsSpace = c :: rest) (hid : identChar c = true)
    (hne : c2 ≠ '(')
    (h2 : ((c :: rest).dropWhile identChar).dropWhile pyIsSpace = c2 :: t2) :
    smcGo x = smcGo (c2 :: t2) := by
  rw [smcGo]
  split
  · next heq => rw [h] at heq; exact List.noConfusion heq
  · next c' rest' heq =>
    rw [h] at heq
    injection heq with e1 e2
    subst e1; subst e2
    rw [dif_pos hid]
    split
    · next t' heq2 =>
      rw [h2] at heq2
      injection heq2 with e1 e2
      exact absurd e1 hne
    · next heq2 => rw [h2] at heq2; exact List.noConfusion heq2
    · next c2' t2' hne' heq2 =>
      rw [h2] at heq2
      injection heq2 with e1 e2
      subst e1; subst e2
      rfl

theorem smcGo_eq_noident {x : List Char} {c : Char} {rest : List Char}
    (h : x.dropWhile pyIsSpace = c :: rest) (hnid : ¬ identChar c = true) :
    smcGo x = smcGo rest := by
  rw [smcGo]
  split
  · next heq => rw [h] at heq; exact List.noConfusion heq
  · next c' rest' heq =>
    rw [h] at heq
    injection heq with e1 e2
    subst e1; subst e2
    rw [dif_neg hnid]

theorem getLast?_cons_of_ne_nil {α : Type} (a : α) {L : List α} (hL : L ≠ []) :
    (a :: L).getLast? = L.getLast? := by
  rcases L with _ | ⟨b, t⟩
  · exact absurd rfl hL
  · simp [List.getLast?_cons_cons]

theorem smcGo_spec : ∀ (s : List Char) (r : String), r ∈ smcGo s →
    ∃ nm rest, r.toList = nm ++ '(' :: rest ∧ nm ≠ [] ∧
      (∀ c ∈ nm, identChar c = true) ∧
      ((('(' :: rest).count '(' = ('(' :: rest).count ')' ∧
        ('(' :: rest).getLast? = some ')') ∨
       (smcGo s).getLast? = some r) := by
  intro s
  induction s using smcGo.induct with
  | case1 x h =>
    intro r hr
    rw [smcGo_eq_nil h] at hr
    exact absurd hr (List.not_mem_nil r)
  | case2 x c rest h hid t h2 ih =>
    intro r hr
    have hname : (c :: rest).takeWhile identChar = c :: rest.takeWhile identChar := by
      simp [List.takeWhile_cons, hid]
    have hcap : captureCall ('(' :: t) 0 [] = captureCall t 1 ['('] := by
      simp [captureCall]
    rw [smcGo_eq_capture h hid h2] at hr
    rcases List.mem_cons.mp hr with rfl | hmem
    · obtain ⟨cs, hc1, hc2⟩ := captureCall_consumed t 1 ['(']
      refine ⟨(c :: rest).takeWhile identChar, cs, ?_, ?_, ?_, ?_⟩
      · show ((c :: rest).takeWhile identChar ++ (captureCall ('(' :: t) 0 []).1) =
          (c :: rest).takeWhile identChar ++ '(' :: cs
        rw [hcap, hc1]
        rfl
      · rw [hname]; exact List.noConfusion
      · intro x hx; exact List.mem_takeWhile_imp hx
      · by_cases hrest2 : (captureCall ('(' :: t) 0 []).2 = []
        · right
          rw [smcGo_eq_capture h hid h2, hrest2, smcGo_eq_nil (x := []) rfl]
          rfl
        · left
          obtain ⟨consumed, hs1, hs2, hs3, hs4⟩ :=
            captureCall_spec ('(' :: t) 0 [] hrest2
          have hcon : consumed = '(' :: cs := by
            have : ([] : List Char) ++ consumed = ['('] ++ cs := by
              rw [← hs1, hcap, hc1]
            simpa using this
          rw [← hcon]
          constructor
          · have : (consumed.count '(' : Int) = consumed.count ')' := by
              rw [← hs4]; ring
            exact_mod_cast this
          · exact hs3
    · obtain ⟨nm, rest2, ha, hb, hc, hd⟩ := ih r hmem
      refine ⟨nm, rest2, ha, hb, hc, ?_⟩
      rcases hd with hd | hd
      · exact Or.inl hd
      · right
        rw [smcGo_eq_capture h hid h2]
        rw [getLast?_cons_of_ne_nil _ (by intro hnil; rw [hnil] at hmem; exact absurd hmem (List.not_mem_nil r))]
        exact hd
  | case3 x c rest h hid h2 =>
    intro r hr
    rw [smcGo_eq_stop h hid h2] at hr
    exact absurd hr (List.not_mem_nil r)
  | case4 x c rest h hid c2 t2 hne h2 ih =>
    intro r hr
    rw [smcGo_eq_skip2 h hid (fun he => hne he) h2] at hr
    obtain ⟨nm, rest2, ha, hb, hc, hd⟩ := ih r hr
    refine ⟨nm, rest2, ha, hb, hc, ?_⟩
    rcases hd with hd | hd
    · exact Or.inl hd
    · right
      rw [smcGo_eq_skip2 h hid (fun he => hne he) h2]
      exact hd
  | case5 x c rest h hnid ih =>
    intro r hr
    rw [smcGo_eq_noident h hnid] at hr
    obtain ⟨nm, rest2, ha, hb, hc, hd⟩ := ih r hr
    refine ⟨nm, rest2, ha, hb, hc, ?_⟩
    rcases hd with hd | hd
    · exact Or.inl hd
    · right
      rw [smcGo_eq_noident h hnid]
      exact hd

/-- **C5** (counterexample).  The claim says every substring
`split_module_calls` returns has the shape `identifier(...)` with
balanced delimiters.  On the input `"f("` the scanner runs out of input
mid-capture and emits the unclosed fragment `"f("`: it has no closing
parenthesis at all, so it is not of that shape. -/
theorem C5_counterexample :
    split_module_calls "f(" = ["f("] ∧
    "f(".toList.getLast? ≠ some ')' ∧
    "f(".toList.count '(' ≠ "f(".toList.count ')' := by
  refine ⟨?_, by decide, by decide⟩
  have h0 : smcGo ((captureCall ['('] 0 []).2) = [] := by
    rw [show (captureCall ['('] 0 []).2 = [] from rfl]
    unfold smcGo; rfl
  unfold split_module_calls smcGo
  conv_lhs => whnf
  rw [h0]
  rfl

/-- **C5** (amended).  Every substring returned by `split_module_calls`
starts with a non-empty identifier (letters/underscore) immediately
followed by `(`; the capture tracks nesting over `(` and `)` only, and
either closes with a parenthesis-balanced capture ending in `)`, or the
input ended mid-capture, in which case the unclosed fragment is the last
emitted substring.  Non-call text is silently skipped (the function is
total and never raises). -/
theorem C5_splitter_shape (s r : String) (hr : r ∈ split_module_calls s) :
    ∃ nm rest, r.toList = nm ++ '(' :: rest ∧ nm ≠ [] ∧
      (∀ c ∈ nm, identChar c = true) ∧
      ((('(' :: rest).count '(' = ('(' :: rest).count ')' ∧
        ('(' :: rest).getLast? = some ')') ∨
       (split_module_calls s).getLast? = some r) :=
  smcGo_spec s.toList r hr

/-- Witness for `C5_splitter_shape` at the input `"g(y)"`. -/
theorem C5_splitter_shape_witness :
    "g(y)" ∈ split_module_calls "g(y)" ∧
    (∃ nm rest, "g(y)".toList = nm ++ '(' :: rest ∧ nm ≠ [] ∧
      (∀ c ∈ nm, identChar c = true) ∧
      ((('(' :: rest).count '(' = ('(' :: rest).count ')' ∧
        ('(' :: rest).getLast? = some ')') ∨
       (split_module_calls "g(y)").getLast? = some "g(y)")) := by
  have hev : split_module_calls "g(y)" = ["g(y)"] := by
    have h0 : smcGo ((captureCall ['(', 'y', ')'] 0 []).2) = [] := by
      rw [show (captureCall ['(', 'y', ')'] 0 []).2 = [] from rfl]
      unfold smcGo; rfl
    unfold split_module_calls smcGo
    conv_lhs => whnf
    rw [h0]
    rfl
  have hmem : "g(y)" ∈ split_module_calls "g(y)" := by
    rw [hev]; exact List.mem_singleton.mpr rfl
  exact ⟨hmem, C5_splitter_shape "g(y)" "g(y)" hmem⟩

/-- **C4**.  A call-shaped input always yields the command name and the
parsed `key=value` fields, for *every* parameter text `mid` — no field
content can make the builder discard the enclosing command (`parse_value`
is total: a numeric failure falls back to the raw string); and the only
per-field drop — a parameter without `=` — removes exactly that field,
leaving the others to parse normally. -/
theorem C4_field_isolation (name mid : List Char) (hne : name ≠ [])
    (hword : ∀ c ∈ name, isWordChar c = true) :
    parse_module_call (String.mk (name ++ '(' :: (mid ++ [')']))) =
      (some (String.mk name), buildParams (split_top_level mid) []) ∧
    ∀ (ps qs : List (List Char)) (p : List Char) (acc : List (String × Value)),
      p.contains '=' = false →
      buildParams (ps ++ p :: qs) acc = buildParams (ps ++ qs) acc :=
  ⟨parse_module_call_shape name mid hne hword,
   fun ps qs p acc hp => buildParams_skip p hp ps qs acc⟩

/-- Witness for `C4_field_isolation` at `pick(a=1,b)`. -/
theorem C4_field_isolation_witness :
    "pick".toList ≠ [] ∧ (∀ c ∈ "pick".toList, isWordChar c = true) ∧
    parse_module_call (String.mk ("pick".toList ++ '(' :: ("a=1,b".toList ++ [')']))) =
      (some (String.mk "pick".toList), buildParams (split_top_level "a=1,b".toList) []) :=
  ⟨by decide, by decide,
   (C4_field_isolation "pick".toList "a=1,b".toList (by decide) (by decide)).1⟩

/-- **C6**.  The matching criteria are exactly the descriptor fields whose
value is not the `"null"` sentinel (absent fields impose nothing); a
record matches iff every criterion equals its field case-insensitively;
and resolution returns the first matching record in registry order — in
particular the unknown sentinel for zero matches and the unique match's
id for exactly one. -/
theorem C6_resolution (desc : List (String × String)) (cs : List Container) :
    (∀ c, containerMatches desc c = true ↔
      ∀ p ∈ desc, p.2 ≠ "null" → pyLower (recordGet c p.1) = pyLower p.2) ∧
    match_container desc cs = (cs.filter (containerMatches desc)).head? ∧
    containerParamId desc cs =
      (match (cs.filter (containerMatches desc)).head? with
       | some c => c.id
       | none => "unknown") := by
  have hmc : match_container desc cs = (cs.filter (containerMatches desc)).head? := by
    unfold match_container
    by_cases h1 : (cs.filter (containerMatches desc)).length = 1
    · simp [h1]
    · by_cases h0 : (cs.filter (containerMatches desc)).length = 0
      · rw [if_neg h1, if_pos h0, List.length_eq_zero.mp h0]
        rfl
      · simp [h1, h0]
  refine ⟨?_, hmc, ?_⟩
  · intro c
    unfold containerMatches descCriteria
    rw [List.all_eq_true]
    constructor
    · intro h p hp hnull
      have := h p (List.mem_filter.mpr ⟨hp, by simpa using hnull⟩)
      simpa using this
    · intro h p hp
      obtain ⟨hp1, hp2⟩ := List.mem_filter.mp hp
      simp only [beq_iff_eq]
      exact h p hp1 (by simpa using hp2)
  · unfold containerParamId
    rw [hmc]

/-- Witness for `C6_resolution`: the resolution policy evaluated on a
one-record registry. -/
theorem C6_resolution_witness :
    match_container [("type", "beaker"), ("content_color", "blue")]
        [{ id := "b1", type := "Beaker", content_color := "BLUE" }] =
      ([{ id := "b1", type := "Beaker", content_color := "BLUE" }].filter
        (containerMatches [("type", "beaker"), ("content_color", "blue")])).head? ∧
    containerParamId [("type", "beaker"), ("content_color", "blue")]
        [{ id := "b1", type := "Beaker", content_color := "BLUE" }] = "b1" := by
  refine ⟨(C6_resolution _ _).2.1, ?_⟩
  rw [(C6_resolution [("type", "beaker"), ("content_color", "blue")]
    [{ id := "b1", type := "Beaker", content_color := "BLUE" }]).2.2]
  rfl

/-- **C7** (counterexample).  In the pick/place container branch (and the
pour-origin branch, which is the same code path), a descriptor of type
`"active container"` that matches nothing resolves to `"unknown"`, not to
the reserved id `"active_container"` — the special case exists only in
the pour-destination branch. -/
theorem C7_counterexample :
    containerParamId [("type", "active container")] [] = "unknown" ∧
    containerParamId [("type", "active container")] [] ≠ "active_container" :=
  ⟨rfl, by decide⟩

/-- **C7** (amended).  When no record matches and the descriptor's `type`
is `"active container"` (case-insensitively), the *pour destination*
resolves to the reserved id `"active_container"`, while the same
descriptor in a pick/place container field or as the pour origin
resolves to `"unknown"`. -/
theorem C7_active_container (desc : List (String × String)) (cs : List Container)
    (hnm : match_container desc cs = none)
    (hty : pyLower (descGet desc "type") = "active container") :
    pourDestinationId desc cs = "active_container" ∧
    containerParamId desc cs = "unknown" := by
  unfold pourDestinationId containerParamId
  rw [hnm]
  simp [hty]

/-- Witness for `C7_active_container`. -/
theorem C7_active_container_witness :
    match_container [("type", "active container")] ([] : List Container) = none ∧
    pyLower (descGet [("type", "active container")] "type") = "active container" ∧
    pourDestinationId [("type", "active container")] [] = "active_container" ∧
    containerParamId [("type", "active container")] [] = "unknown" := by
  have h1 : match_container [("type", "active container")] ([] : List Container) = none := rfl
  have h2 : pyLower (descGet [("type", "active container")] "type") = "active container" := rfl
  obtain ⟨a, b⟩ := C7_active_container _ _ h1 h2
  exact ⟨h1, h2, a, b⟩

/-! ## Evaluation facts for the orientation math -/

theorem myAtan2_zero_one : myAtan2 0 1 = 0 := by
  unfold myAtan2
  rw [if_pos (by norm_num : (0:ℝ) < 1)]
  norm_num [Real.arctan_zero]

theorem pitchOf_zero : pitchOf 0 = 0 := by
  unfold pitchOf
  rw [if_neg (by norm_num)]
  norm_num [Real.arcsin_zero]

/-- The identity quaternion converts — through the degenerate fallback —
to `(0, 0, 1)`. -/
theorem qte_identity : quaternion_to_euler [0, 0, 0, 1] = .ok (0, 0, 1) := by
  unfold quaternion_to_euler
  norm_num [myAtan2_zero_one, pitchOf_zero]

theorem round3r_zero : round3r 0 = 0 := by
  unfold round3r
  norm_num

theorem round3r_one : round3r 1 = 1 := by
  unfold round3r
  norm_num [round_eq]

theorem round3q_zero : round3q 0 = 0 := by
  unfold round3q
  norm_num

theorem round3q_one : round3q 1 = 1 := by
  unfold round3q
  norm_num [round_eq]

theorem round3q_two : round3q 2 = 2 := by
  unfold round3q
  norm_num [round_eq]

theorem round3q_three : round3q 3 = 3 := by
  unfold round3q
  norm_num [round_eq]

theorem mkLabel_pose1 : mkLabel false 1 = "pose1" := by
  unfold mkLabel
  rw [natDigits]
  rfl

theorem mkLabel_pose2 : mkLabel false 2 = "pose2" := by
  unfold mkLabel
  rw [natDigits]
  rfl

theorem mkLabel_pose3 : mkLabel false 3 = "pose3" := by
  unfold mkLabel
  rw [natDigits]
  rfl

/-! ## Branch lemmas for `processLine` -/

theorem getQ_ok {l : List ℚ} {i : ℕ} {v : ℚ} (h : l.get? i = some v) :
    getQ l i = .ok v := by
  unfold getQ
  rw [h]

theorem pick_isPrefixOf (content : List Char) :
    "Pick(".toList.isPrefixOf ("Pick(".toList ++ content ++ [')']) = true := by
  rw [List.append_assoc]
  exact isPrefixOf_append _ _

theorem place_isPrefixOf (content : List Char) :
    "Place(".toList.isPrefixOf ("Place(".toList ++ content ++ [')']) = true := by
  rw [List.append_assoc]
  exact isPrefixOf_append _ _

theorem pour_isPrefixOf (content : List Char) :
    "pour(".toList.isPrefixOf ("pour(".toList ++ content ++ [')']) = true := by
  rw [List.append_assoc]
  exact isPrefixOf_append _ _

theorem line_getLast (pre content : List Char) :
    (pre ++ content ++ [')']).getLast? = some ')' :=
  List.getLast?_concat _

theorem not_pick_of_place (t : List Char) :
    "Pick(".toList.isPrefixOf ("Place(".toList ++ t) = false := by
  by_contra h
  simp only [Bool.not_eq_false] at h
  obtain ⟨u, hu⟩ := isPrefixOf_exists _ _ h
  have h2 := congrArg (fun l => l.get? 1) hu
  simp at h2

theorem not_pick_of_pour (t : List Char) :
    "Pick(".toList.isPrefixOf ("pour(".toList ++ t) = false := by
  by_contra h
  simp only [Bool.not_eq_false] at h
  obtain ⟨u, hu⟩ := isPrefixOf_exists _ _ h
  have h2 := congrArg (fun l => l.get? 0) hu
  simp at h2

theorem not_place_of_pour (t : List Char) :
    "Place(".toList.isPrefixOf ("pour(".toList ++ t) = false := by
  by_contra h
  simp only [Bool.not_eq_false] at h
  obtain ⟨u, hu⟩ := isPrefixOf_exists _ _ h
  have h2 := congrArg (fun l => l.get? 0) hu
  simp at h2

theorem not_pick_cond_place (st : SynthState) (content : List Char) :
    ¬("Pick(".toList.isPrefixOf ("Place(".toList ++ content ++ [')']) = true ∧
      ("Place(".toList ++ content ++ [')']).getLast? = some ')') := by
  intro hcon
  rw [List.append_assoc, not_pick_of_place] at hcon
  simp at hcon

theorem not_pick_cond_pour (st : SynthState) (content : List Char) :
    ¬("Pick(".toList.isPrefixOf ("pour(".toList ++ content ++ [')']) = true ∧
      ("pour(".toList ++ content ++ [')']).getLast? = some ')') := by
  intro hcon
  rw [List.append_assoc, not_pick_of_pour] at hcon
  simp at hcon

theorem not_place_cond_pour (st : SynthState) (content : List Char) :
    ¬("Place(".toList.isPrefixOf ("pour(".toList ++ content ++ [')']) = true ∧
      ("pour(".toList ++ content ++ [')']).getLast? = some ')') := by
  intro hcon
  rw [List.append_assoc, not_place_of_pour] at hcon
  simp at hcon

/-- The Pick branch with a known container: emits one pose entry from
the container's current position and converted orientation (substituting
the identity quaternion when fewer than 4 components are stored), and
appends the label and `'grasp'` to the targets. -/
theorem processLine_pick_found (st : SynthState) (content : List Char) (ct : Container)
    (hget : dictGet st.containers (String.mk (pyStrip content)) = some ct)
    (rpy : ℝ × ℝ × ℝ)
    (hq : quaternion_to_euler
      (if ct.orientation.length < 4 then [0, 0, 0, 1] else ct.orientation) = .ok rpy)
    (x y z : ℚ) (hx : ct.position.get? 0 = some x) (hy : ct.position.get? 1 = some y)
    (hz : ct.position.get? 2 = some z) :
    processLine st ("Pick(".toList ++ content ++ [')']) =
      .ok { st with
        poses := st.poses ++ [(mkLabel false st.counter,
          .pose (round3q x) (round3q y) (round3q z)
            (round3r rpy.1) (round3r rpy.2.1) (round3r rpy.2.2))],
        targets := st.targets ++ [.str (mkLabel false st.counter), .str "grasp"],
        counter := st.counter + 1 } := by
  unfold processLine
  rw [if_pos ⟨pick_isPrefixOf content, line_getLast _ _⟩]
  have hdrop : (("Pick(".toList ++ content ++ ([')'] : List Char)).drop 5).dropLast = content := by
    rw [List.append_assoc, show (5 : ℕ) = "Pick(".toList.length from rfl,
      List.drop_left, List.dropLast_concat]
  rw [hdrop]
  split
  · next container heq =>
    rw [hget] at heq
    injection heq with heq
    subst heq
    rw [hq, getQ_ok hx, getQ_ok hy, getQ_ok hz]
    rfl
  · next heq =>
    rw [hget] at heq
    exact Option.noConfusion heq

/-- The Pick branch with an unknown container id: an error pose entry is
appended and the counter advances. -/
theorem processLine_pick_missing (st : SynthState) (content : List Char)
    (hget : dictGet st.containers (String.mk (pyStrip content)) = none) :
    processLine st ("Pick(".toList ++ content ++ [')']) =
      .ok { st with
        poses := st.poses ++ [(mkLabel true st.counter,
          .err ("Error: Container " ++ String.mk (pyStrip content) ++ " not found."))],
        counter := st.counter + 1 } := by
  unfold processLine
  rw [if_pos ⟨pick_isPrefixOf content, line_getLast _ _⟩]
  have hdrop : (("Pick(".toList ++ content ++ ([')'] : List Char)).drop 5).dropLast = content := by
    rw [List.append_assoc, show (5 : ℕ) = "Pick(".toList.length from rfl,
      List.drop_left, List.dropLast_concat]
  rw [hdrop]
  split
  · next container heq =>
    rw [hget] at heq
    exact Option.noConfusion heq
  · rfl

/-- The Place branch with all arguments in order: the container record's
position and orientation are overwritten, one pose entry is emitted and
the label and `'release'` are appended. -/
theorem processLine_place_found (st : SynthState) (content : List Char)
    (a0 a1 : List Char) (restArgs : List (List Char)) (new_position : List ℚ)
    (ct : Container) (rpy : ℝ × ℝ × ℝ)
    (hsplit : split_args (pyStrip content) = a0 :: a1 :: restArgs)
    (hpos : parseFloatList (stripSet ['(', ')'] a1) = some new_position)
    (hget : dictGet st.containers (String.mk a0) = some ct)
    (hq : placeRpy (placeOrientation restArgs) = .ok rpy)
    (x y z : ℚ) (hx : new_position.get? 0 = some x)
    (hy : new_position.get? 1 = some y) (hz : new_position.get? 2 = some z) :
    processLine st ("Place(".toList ++ content ++ [')']) =
      .ok { st with
        containers := dictSet st.containers (String.mk a0)
          { ct with
            position := new_position
            orientation := placeOrientation restArgs },
        poses := st.poses ++ [(mkLabel false st.counter,
          .pose (round3q x) (round3q y) (round3q z)
            (round3r rpy.1) (round3r rpy.2.1) (round3r rpy.2.2))],
        targets := st.targets ++ [.str (mkLabel false st.counter), .str "release"],
        counter := st.counter + 1 } := by
  unfold processLine
  rw [if_neg (not_pick_cond_place st content)]
  rw [if_pos ⟨place_isPrefixOf content, line_getLast _ _⟩]
  have hdrop : (("Place(".toList ++ content ++ ([')'] : List Char)).drop 6).dropLast = content := by
    rw [List.append_assoc, show (6 : ℕ) = "Place(".toList.length from rfl,
      List.drop_left, List.dropLast_concat]
  rw [hdrop]
  split
  · next a0' a1' restArgs' heq =>
    rw [hsplit] at heq
    injection heq with e1 heq2
    injection heq2 with e2 e3
    subst e1; subst e2; subst e3
    split
    · next heq2 =>
      rw [hpos] at heq2
      exact Option.noConfusion heq2
    · next np heq2 =>
      rw [hpos] at heq2
      injection heq2 with heq2
      subst heq2
      split
      · next container heq3 =>
        rw [hget] at heq3
        injection heq3 with heq3
        subst heq3
        rw [hq, getQ_ok hx, getQ_ok hy, getQ_ok hz]
        rfl
      · next heq3 =>
        rw [hget] at heq3
        exact Option.noConfusion heq3
  · next h1 =>
    exact absurd hsplit (h1 a0 a1 restArgs)

/-- The Place-skip paths: fewer than two arguments, or a position that
fails to parse as floats, leave the whole state untouched. -/
theorem processLine_place_skip (st : SynthState) (content : List Char)
    (h : (split_args (pyStrip content)).length < 2 ∨
      ∃ a0 a1 rest, split_args (pyStrip content) = a0 :: a1 :: rest ∧
        parseFloatList (stripSet ['(', ')'] a1) = none) :
    processLine st ("Place(".toList ++ content ++ [')']) = .ok st := by
  unfold processLine
  rw [if_neg (not_pick_cond_place st content)]
  rw [if_pos ⟨place_isPrefixOf content, line_getLast _ _⟩]
  have hdrop : (("Place(".toList ++ content ++ ([')'] : List Char)).drop 6).dropLast = content := by
    rw [List.append_assoc, show (6 : ℕ) = "Place(".toList.length from rfl,
      List.drop_left, List.dropLast_concat]
  rw [hdrop]
  split
  · next a0' a1' restArgs' heq =>
    rcases h with hlen | ⟨a0, a1, rest, hs, hpf⟩
    · rw [heq] at hlen
      exact absurd hlen (by simp only [List.length_cons]; omega)
    · rw [hs] at heq
      injection heq with e1 heq2
      injection heq2 with e2 e3
      subst e1; subst e2; subst e3
      split
      · rfl
      · next np heq2 =>
        rw [hpf] at heq2
        exact Option.noConfusion heq2
  · rfl

/-- The pour branch with a known destination container: one pose entry
from the destination's pose, and the two fixed wrist rotations `1.57`
and `-1.57` after the label. -/
theorem processLine_pour_found (st : SynthState) (content : List Char)
    (a0 a1 : List Char) (restArgs : List (List Char)) (dest : Container)
    (rpy : ℝ × ℝ × ℝ)
    (hsplit : split_args (pyStrip content) = a0 :: a1 :: restArgs)
    (hget : dictGet st.containers (String.mk a1) = some dest)
    (hq : quaternion_to_euler
      (if dest.orientation.length < 4 then [0, 0, 0, 1] else dest.orientation) = .ok rpy)
    (x y z : ℚ) (hx : dest.position.get? 0 = some x) (hy : dest.position.get? 1 = some y)
    (hz : dest.position.get? 2 = some z) :
    processLine st ("pour(".toList ++ content ++ [')']) =
      .ok { st with
        poses := st.poses ++ [(mkLabel false st.counter,
          .pose (round3q x) (round3q y) (round3q z)
            (round3r rpy.1) (round3r rpy.2.1) (round3r rpy.2.2))],
        targets := st.targets ++ [.str (mkLabel false st.counter),
          .num (157 / 100), .num (-(157 / 100))],
        counter := st.counter + 1 } := by
  unfold processLine
  rw [if_neg (not_pick_cond_pour st content)]
  rw [if_neg (not_place_cond_pour st content)]
  rw [if_pos ⟨pour_isPrefixOf content, line_getLast _ _⟩]
  have hdrop : (("pour(".toList ++ content ++ ([')'] : List Char)).drop 5).dropLast = content := by
    rw [List.append_assoc, show (5 : ℕ) = "pour(".toList.length from rfl,
      List.drop_left, List.dropLast_concat]
  rw [hdrop]
  split
  · next a0' a1' restArgs' heq =>
    rw [hsplit] at heq
    injection heq with e1 heq2
    injection heq2 with e2 e3
    subst e1; subst e2; subst e3
    split
    · next container heq3 =>
      rw [hget] at heq3
      injection heq3 with heq3
      subst heq3
      rw [hq, getQ_ok hx, getQ_ok hy, getQ_ok hz]
      rfl
    · next heq3 =>
      rw [hget] at heq3
      exact Option.noConfusion heq3
  · next h1 =>
    exact absurd hsplit (h1 a0 a1 restArgs)

/-- `process_pose_sequence` in terms of `processLines` once the
normalized line list is known. -/
theorem process_pose_sequence_eq (s : String) (reg : List (String × Container))
    (lines : List (List Char))
    (hl : ((splitOnChar '\n' (pyStrip s.toList)).map pyStrip).filter
      (fun l => ¬ l.isEmpty) = lines) :
    process_pose_sequence s reg =
      match processLines lines
          { containers := reg, poses := [], targets := [], counter := 1 } with
      | .ok st => .ok { Poses := st.poses, targets := st.targets }
      | .error e => .error e := by
  unfold process_pose_sequence
  rw [hl]

/-! ## C1: the end-to-end Pick/Place run -/

/-- The one-container registry of the end-to-end scenario. -/
def pickPlaceRegistry : List (String × Container) :=
  [("C1", { id := "C1", position := [0, 0, 0], orientation := [0, 0, 0, 1] })]

/-- The record stored under `"C1"`. -/
def pickPlaceRec : Container :=
  { id := "C1", position := [0, 0, 0], orientation := [0, 0, 0, 1] }

/-- Run state before any line. -/
def ppState0 : SynthState :=
  { containers := pickPlaceRegistry, poses := [], targets := [], counter := 1 }

/-- Run state after `Pick(C1)`. -/
def ppState1 : SynthState :=
  { containers := pickPlaceRegistry
    poses := [("pose1", .pose 0 0 0 0 0 1)]
    targets := [.str "pose1", .str "grasp"]
    counter := 2 }

/-- Run state after `Place(C1,(1,2,3))`. -/
def ppState2 : SynthState :=
  { containers := [("C1", { id := "C1", position := [1, 2, 3], orientation := [0, 0, 1] })]
    poses := [("pose1", .pose 0 0 0 0 0 1), ("pose2", .pose 1 2 3 0 0 1)]
    targets := [.str "pose1", .str "grasp", .str "pose2", .str "release"]
    counter := 3 }

theorem ppLine1 : processLine ppState0 "Pick(C1)".toList = .ok ppState1 := by
  rw [show "Pick(C1)".toList = "Pick(".toList ++ "C1".toList ++ [')'] from rfl]
  rw [processLine_pick_found ppState0 "C1".toList pickPlaceRec rfl
    (0, 0, 1) (by exact qte_identity) 0 0 0 rfl rfl rfl]
  norm_num [ppState0, ppState1, pickPlaceRegistry, round3r_zero, round3r_one,
    round3q_zero, mkLabel_pose1]

theorem ppPlaceRpy : placeRpy (placeOrientation []) = .ok (0, 0, 1) := by
  show placeRpy [0, 0, 1] = .ok (0, 0, 1)
  unfold placeRpy
  norm_num

theorem ppLine2 : processLine ppState1 "Place(C1,(1,2,3))".toList = .ok ppState2 := by
  rw [show "Place(C1,(1,2,3))".toList = "Place(".toList ++ "C1,(1,2,3)".toList ++ [')']
    from rfl]
  rw [processLine_place_found ppState1 "C1,(1,2,3)".toList "C1".toList "(1,2,3)".toList []
    [1, 2, 3] pickPlaceRec (0, 0, 1) rfl rfl rfl ppPlaceRpy 1 2 3 rfl rfl rfl]
  norm_num [ppState1, ppState2, pickPlaceRegistry, pickPlaceRec, round3r_zero,
    round3r_one, round3q_one, round3q_two, round3q_three, mkLabel_pose2, dictSet,
    placeOrientation]

/-- **C1**.  End-to-end: with container `C1` at position `[0,0,0]` and
quaternion orientation `[0,0,0,1]`, the op-codes `Pick(C1)` then
`Place(C1,(1,2,3))` produce exactly the claimed pose table and target
sequence; and the degenerate fallback of `quaternion_to_euler` forces
yaw to `1.0` whenever the three converted Euler angles are exactly
`(0, 0, 0)`. -/
theorem C1_end_to_end :
    process_pose_sequence "Pick(C1)\nPlace(C1,(1,2,3))" pickPlaceRegistry =
      .ok { Poses := [("pose1", .pose 0 0 0 0 0 1), ("pose2", .pose 1 2 3 0 0 1)]
            targets := [.str "pose1", .str "grasp", .str "pose2", .str "release"] } ∧
    (∀ qx qy qz qw : ℚ,
      myAtan2 ((2 * (qw * qx + qy * qz) : ℚ) : ℝ)
        ((1 - 2 * (qx * qx + qy * qy) : ℚ) : ℝ) = 0 →
      pitchOf (2 * (qw * qy - qz * qx)) = 0 →
      myAtan2 ((2 * (qw * qz + qx * qy) : ℚ) : ℝ)
        ((1 - 2 * (qy * qy + qz * qz) : ℚ) : ℝ) = 0 →
      quaternion_to_euler [qx, qy, qz, qw] = .ok (0, 0, 1)) := by
  constructor
  · have hsteps : processLines ["Pick(C1)".toList, "Place(C1,(1,2,3))".toList] ppState0 =
        .ok ppState2 := by
      unfold processLines
      rw [ppLine1]
      show processLines ["Place(C1,(1,2,3))".toList] ppState1 = .ok ppState2
      unfold processLines
      rw [ppLine2]
      rfl
    rw [process_pose_sequence_eq "Pick(C1)\nPlace(C1,(1,2,3))" pickPlaceRegistry
      ["Pick(C1)".toList, "Place(C1,(1,2,3))".toList] rfl]
    rw [show ({ containers := pickPlaceRegistry, poses := [], targets := [], counter := 1 } : SynthState) = ppState0 from rfl]
    rw [hsteps]
    rfl
  · intro qx qy qz qw h1 h2 h3
    unfold quaternion_to_euler
    simp only [h1, h2, h3]
    simp

/-- Witness for the fallback conjunct of `C1_end_to_end`, at the
identity quaternion. -/
theorem C1_end_to_end_witness :
    myAtan2 ((2 * ((1:ℚ) * 0 + 0 * 0) : ℚ) : ℝ)
      ((1 - 2 * ((0:ℚ) * 0 + 0 * 0) : ℚ) : ℝ) = 0 ∧
    pitchOf (2 * ((1:ℚ) * 0 - 0 * 0)) = 0 ∧
    quaternion_to_euler [0, 0, 0, 1] = .ok (0, 0, 1) := by
  have h1 : myAtan2 ((2 * ((1:ℚ) * 0 + 0 * 0) : ℚ) : ℝ)
      ((1 - 2 * ((0:ℚ) * 0 + 0 * 0) : ℚ) : ℝ) = 0 := by
    norm_num [myAtan2_zero_one]
  have h2 : pitchOf (2 * ((1:ℚ) * 0 - 0 * 0)) = 0 := by
    norm_num [pitchOf_zero]
  exact ⟨h1, h2, C1_end_to_end.2 0 0 0 1 h1 h2 h1⟩

/-! ## C2: an uncaught `IndexError` in the Place branch -/

/-- **C2**.  The safety claim fails: a `Place` line whose position parses
to only two floats reaches `round(new_position[2], 3)` and raises an
uncaught `IndexError` (`Except.error`), aborting the whole run — the
per-line recovery does not cover it. -/
theorem C2_place_crash :
    process_pose_sequence "Place(C1,(1,2))" pickPlaceRegistry =
      .error "list index out of range" := rfl

/-! ## C10: the Place validation skip paths -/

/-- **C10**.  A `Place` line with fewer than two split arguments, or
whose position argument does not parse as a float list, is skipped
entirely: the loop state — containers (hence every record's position and
orientation), pose table, targets and pose counter — is returned
unchanged, with no error entry. -/
theorem C10_place_validation_skip (st : SynthState) (content : List Char)
    (h : (split_args (pyStrip content)).length < 2 ∨
      ∃ a0 a1 rest, split_args (pyStrip content) = a0 :: a1 :: rest ∧
        parseFloatList (stripSet ['(', ')'] a1) = none) :
    processLine st ("Place(".toList ++ content ++ [')']) = .ok st :=
  processLine_place_skip st content h

/-- Witness for `C10_place_validation_skip`: `Place(C1)` — a single
argument — leaves the start state untouched. -/
theorem C10_place_validation_skip_witness :
    ((split_args (pyStrip "C1".toList)).length < 2 ∨
      ∃ a0 a1 rest, split_args (pyStrip "C1".toList) = a0 :: a1 :: rest ∧
        parseFloatList (stripSet ['(', ')'] a1) = none) ∧
    processLine ppState0 ("Place(".toList ++ "C1".toList ++ [')']) = .ok ppState0 := by
  have h : (split_args (pyStrip "C1".toList)).length < 2 ∨
      ∃ a0 a1 rest, split_args (pyStrip "C1".toList) = a0 :: a1 :: rest ∧
        parseFloatList (stripSet ['(', ')'] a1) = none := Or.inl (by decide)
  exact ⟨h, C10_place_validation_skip ppState0 "C1".toList h⟩

/-! ## C8: label uniqueness via the per-run counter -/

/-- Splitting a successful `Except` bind into its two stages. -/
theorem bind_ok_elim {α β : Type} {x : Except String α} {f : α → Except String β} {b : β}
    (h : (x >>= f) = .ok b) : ∃ a, x = .ok a ∧ f a = .ok b := by
  cases x with
  | error e => simp [Bind.bind, Except.bind] at h
  | ok a => exact ⟨a, rfl, by simpa [Bind.bind, Except.bind] using h⟩

/-- The digit characters produced by `natDigits` evaluate back to their
values. -/
theorem digitVal_ofNat : ∀ d < 10, digitVal (Char.ofNat (48 + d)) = d := by decide

/-- Folding the base-10 digit list back recovers the number: `natDigits`
is a section of the digit fold. -/
theorem digitsToNat_natDigits :
    ∀ n : ℕ, (natDigits n).foldl (fun a c => a * 10 + digitVal c) 0 = n := by
  intro n
  induction n using Nat.strong_induction_on with
  | _ n ih =>
    rw [natDigits]
    split
    · next h =>
      simp only [List.foldl_cons, List.foldl_nil]
      rw [digitVal_ofNat n h]
      omega
    · next h =>
      rw [List.foldl_append]
      rw [ih (n / 10) (Nat.div_lt_self (by omega) (by omega))]
      simp only [List.foldl_cons, List.foldl_nil]
      rw [digitVal_ofNat (n % 10) (Nat.mod_lt n (by omega))]
      omega

/-- `natDigits` is injective. -/
theorem natDigits_inj {n m : ℕ} (h : natDigits n = natDigits m) : n = m := by
  have h1 := digitsToNat_natDigits n
  have h2 := digitsToNat_natDigits m
  rw [h] at h1
  omega

/-- Two equal pose labels share the error flag and the counter value:
`pose…`/`error_pose…` differ in their first character, and the digit
tails are injective. -/
theorem mkLabel_inj {b b' : Bool} {n n' : ℕ} (h : mkLabel b n = mkLabel b' n') :
    b = b' ∧ n = n' := by
  unfold mkLabel at h
  injection h with h
  cases b <;> cases b'
  · exact ⟨rfl, natDigits_inj (List.append_cancel_left h)⟩
  · have h2 := congrArg List.head? h
    rw [show ((if false then "error_pose" else "pose").toList : List Char) =
        'p' :: "ose".toList from rfl,
      show ((if true then "error_pose" else "pose").toList : List Char) =
        'e' :: "rror_pose".toList from rfl] at h2
    simp only [List.cons_append, List.head?_cons] at h2
    exact absurd h2 (by decide)
  · have h2 := congrArg List.head? h
    rw [show ((if true then "error_pose" else "pose").toList : List Char) =
        'e' :: "rror_pose".toList from rfl,
      show ((if false then "error_pose" else "pose").toList : List Char) =
        'p' :: "ose".toList from rfl] at h2
    simp only [List.cons_append, List.head?_cons] at h2
    exact absurd h2 (by decide)
  · exact ⟨rfl, natDigits_inj (List.append_cancel_left h)⟩

/-- Every line either leaves the pose table and counter untouched, or
appends exactly one entry labelled with the current counter value and
advances the counter by one. -/
theorem processLine_step (st : SynthState) (line : List Char) (st2 : SynthState)
    (h : processLine st line = .ok st2) :
    (st2.poses = st.poses ∧ st2.counter = st.counter) ∨
    ∃ b e, st2.poses = st.poses ++ [(mkLabel b st.counter, e)] ∧
      st2.counter = st.counter + 1 := by
  unfold processLine at h
  split at h
  · split at h
    · obtain ⟨rpy, hq, h⟩ := bind_ok_elim h
      obtain ⟨x, hx, h⟩ := bind_ok_elim h
      obtain ⟨y, hy, h⟩ := bind_ok_elim h
      obtain ⟨z, hz, h⟩ := bind_ok_elim h
      injection h with h
      subst h
      right; exact ⟨false, _, rfl, rfl⟩
    · injection h with h
      subst h
      right; exact ⟨true, _, rfl, rfl⟩
  · split at h
    · split at h
      · split at h
        · injection h with h
          subst h
          left; exact ⟨rfl, rfl⟩
        · split at h
          · obtain ⟨rpy, hq, h⟩ := bind_ok_elim h
            obtain ⟨x, hx, h⟩ := bind_ok_elim h
            obtain ⟨y, hy, h⟩ := bind_ok_elim h
            obtain ⟨z, hz, h⟩ := bind_ok_elim h
            injection h with h
            subst h
            right; exact ⟨false, _, rfl, rfl⟩
          · injection h with h
            subst h
            right; exact ⟨true, _, rfl, rfl⟩
      · injection h with h
        subst h
        left; exact ⟨rfl, rfl⟩
    · split at h
      · split at h
        · split at h
          · obtain ⟨rpy, hq, h⟩ := bind_ok_elim h
            obtain ⟨x, hx, h⟩ := bind_ok_elim h
            obtain ⟨y, hy, h⟩ := bind_ok_elim h
            obtain ⟨z, hz, h⟩ := bind_ok_elim h
            injection h with h
            subst h
            right; exact ⟨false, _, rfl, rfl⟩
          · injection h with h
            subst h
            right; exact ⟨true, _, rfl, rfl⟩
        · injection h with h
          subst h
          left; exact ⟨rfl, rfl⟩
      · injection h with h
        subst h
        right; exact ⟨true, _, rfl, rfl⟩

/-- Over a whole run: the labels appended by the loop are tagged with
strictly increasing counter values, each at least the starting counter
and below the final one. -/
theorem processLines_tags :
    ∀ (ls : List (List Char)) (st st2 : SynthState),
    processLines ls st = .ok st2 →
    ∃ tags : List (Bool × ℕ),
      st2.poses.map Prod.fst =
        st.poses.map Prod.fst ++ tags.map (fun t => mkLabel t.1 t.2) ∧
      (∀ t ∈ tags, st.counter ≤ t.2 ∧ t.2 < st2.counter) ∧
      List.Pairwise (fun a b : Bool × ℕ => a.2 < b.2) tags ∧
      st.counter ≤ st2.counter := by
  intro ls
  induction ls with
  | nil =>
    intro st st2 h
    rw [show processLines [] st = .ok st from rfl] at h
    injection h with h
    subst h
    exact ⟨[], by simp, by simp, List.Pairwise.nil, le_refl _⟩
  | cons l ls ih =>
    intro st st2 h
    rw [show processLines (l :: ls) st =
      (match processLine st l with
       | .ok st1 => processLines ls st1
       | .error e => .error e) from rfl] at h
    cases hline : processLine st l with
    | error e =>
      rw [hline] at h
      exact absurd h (by simp)
    | ok st1 =>
      rw [hline] at h
      obtain ⟨tags1, hmap, hbounds, hpw, hc⟩ := ih st1 st2 h
      rcases processLine_step st l st1 hline with ⟨hp, hcnt⟩ | ⟨b, e, hp, hcnt⟩
      · refine ⟨tags1, by rw [hmap, hp], ?_, hpw, by omega⟩
        intro t ht
        have := hbounds t ht
        omega
      · refine ⟨(b, st.counter) :: tags1, ?_, ?_, ?_, by omega⟩
        · rw [hmap, hp]
          simp
        · intro t ht
          rcases List.mem_cons.mp ht with h1 | h1
          · subst h1
            constructor
            · exact le_refl _
            · omega
          · have := hbounds t h1
            omega
        · refine List.Pairwise.cons ?_ hpw
          intro t ht
          have := hbounds t ht
          omega

/-- **C8**.  In every successful run of `process_pose_sequence`, the
pose-table labels are exactly `pose<N>`/`error_pose<N>` for a list of
counter values that starts at 1 or later and is strictly increasing, so
all labels in the `Poses` table are distinct. -/
theorem C8_labels_unique (s : String) (reg : List (String × Container)) (out : Output)
    (h : process_pose_sequence s reg = .ok out) :
    ∃ tags : List (Bool × ℕ),
      out.Poses.map Prod.fst = tags.map (fun t => mkLabel t.1 t.2) ∧
      (∀ t ∈ tags, 1 ≤ t.2) ∧
      List.Pairwise (fun a b : Bool × ℕ => a.2 < b.2) tags ∧
      (out.Poses.map Prod.fst).Nodup := by
  unfold process_pose_sequence at h
  simp only [] at h
  split at h
  · next st heq =>
    injection h with h
    subst h
    obtain ⟨tags, hmap, hbounds, hpw, _⟩ := processLines_tags _ _ _ heq
    simp only [List.map_nil, List.nil_append] at hmap
    refine ⟨tags, hmap, fun t ht => (hbounds t ht).1, hpw, ?_⟩
    rw [hmap]
    refine List.Pairwise.map (fun t => mkLabel t.1 t.2) ?_ hpw
    intro a b hab hEq
    exact absurd (mkLabel_inj hEq).2 (by omega)
  · next e heq =>
    exact absurd h (by simp)

/-- Witness for `C8_labels_unique`: the empty run. -/
theorem C8_labels_unique_witness :
    process_pose_sequence "" [] = .ok { Poses := [], targets := [] } ∧
    ∃ tags : List (Bool × ℕ),
      (({ Poses := [], targets := [] } : Output)).Poses.map Prod.fst =
        tags.map (fun t => mkLabel t.1 t.2) ∧
      (∀ t ∈ tags, 1 ≤ t.2) ∧
      List.Pairwise (fun a b : Bool × ℕ => a.2 < b.2) tags ∧
      ((({ Poses := [], targets := [] } : Output)).Poses.map Prod.fst).Nodup :=
  ⟨rfl, C8_labels_unique "" [] { Poses := [], targets := [] } rfl⟩

/-! ## C9: Place-stored orientations and later reads -/

/-- The non-degenerate arm of `quaternion_to_euler` written out. -/
theorem qte_cons (qx qy qz qw : ℚ) :
    quaternion_to_euler [qx, qy, qz, qw] =
      if myAtan2 ((2 * (qw * qx + qy * qz) : ℚ) : ℝ)
            ((1 - 2 * (qx * qx + qy * qy) : ℚ) : ℝ) = 0 ∧
          pitchOf (2 * (qw * qy - qz * qx)) = 0 ∧
          myAtan2 ((2 * (qw * qz + qx * qy) : ℚ) : ℝ)
            ((1 - 2 * (qy * qy + qz * qz) : ℚ) : ℝ) = 0
      then .ok (0, 0, 1)
      else .ok (myAtan2 ((2 * (qw * qx + qy * qz) : ℚ) : ℝ)
          ((1 - 2 * (qx * qx + qy * qy) : ℚ) : ℝ),
        pitchOf (2 * (qw * qy - qz * qx)),
        myAtan2 ((2 * (qw * qz + qx * qy) : ℚ) : ℝ)
          ((1 - 2 * (qy * qy + qz * qz) : ℚ) : ℝ)) := rfl

/-- `atan2(2, -1)` lies in the second quadrant, hence is positive. -/
theorem myAtan2_two_neg_one_pos : 0 < myAtan2 2 (-1) := by
  unfold myAtan2
  rw [if_neg (by norm_num), if_pos (by norm_num : (-1 : ℝ) < 0),
    if_pos (by norm_num : (0:ℝ) ≤ 2)]
  have h := Real.neg_pi_div_two_lt_arctan (2 / (-1 : ℝ))
  have hpi := Real.pi_pos
  linarith

/-- Converting the quaternion `[1, 0, 0, 1]`: roll is `atan2(2, -1) ≠ 0`,
so the degenerate fallback does not fire and yaw stays `0`. -/
theorem qte_q1001 : quaternion_to_euler [1, 0, 0, 1] = .ok (myAtan2 2 (-1), 0, 0) := by
  have hr := myAtan2_two_neg_one_pos
  rw [qte_cons]
  rw [if_neg]
  · norm_num [pitchOf_zero, myAtan2_zero_one]
  · intro hc
    rw [show ((2 * ((1:ℚ) * 1 + 0 * 0) : ℚ) : ℝ) = 2 by norm_num,
      show ((1 - 2 * ((1:ℚ) * 1 + 0 * 0) : ℚ) : ℝ) = -1 by norm_num] at hc
    exact absurd hc.1 (by linarith)

/-- The yaw value stored under a given label of a successful run's pose
table (`none` for error entries, missing labels, or a failed run). -/
def poseYawAt (r : Except String Output) (lab : String) : Option ℝ :=
  match r with
  | .ok out =>
    match out.Poses.find? (fun p => p.1 == lab) with
    | some (_, .pose _ _ _ _ _ yw) => some yw
    | _ => none
  | .error _ => none

/-- State after `Place(C1,(1,2,3),(1,0,0,1))` from `ppState0`: the
4-component orientation is stored as given. -/
noncomputable def c9St1 : SynthState :=
  { containers := [("C1", { id := "C1", position := [1, 2, 3], orientation := [1, 0, 0, 1] })]
    poses := [("pose1", .pose 1 2 3 (round3r (myAtan2 2 (-1))) 0 0)]
    targets := [.str "pose1", .str "release"]
    counter := 2 }

/-- State after the subsequent `Pick(C1)`: the stored quaternion is
converted again — the Place-set orientation is reflected. -/
noncomputable def c9St2 : SynthState :=
  { c9St1 with
    poses := c9St1.poses ++ [("pose2", .pose 1 2 3 (round3r (myAtan2 2 (-1))) 0 0)]
    targets := c9St1.targets ++ [.str "pose2", .str "grasp"]
    counter := 3 }

/-- The orientation argument `(1,0,0,1)` of the Place line parses as a
4-float quaternion and converts without the fallback. -/
theorem c9PlaceRpy : placeRpy (placeOrientation ["(1,0,0,1)".toList]) =
    .ok (myAtan2 2 (-1), 0, 0) := by
  show placeRpy [1, 0, 0, 1] = _
  show quaternion_to_euler [1, 0, 0, 1] = _
  exact qte_q1001

theorem c9Line1 : processLine ppState0 "Place(C1,(1,2,3),(1,0,0,1))".toList = .ok c9St1 := by
  rw [show "Place(C1,(1,2,3),(1,0,0,1))".toList =
    "Place(".toList ++ "C1,(1,2,3),(1,0,0,1)".toList ++ [')'] from rfl]
  rw [processLine_place_found ppState0 "C1,(1,2,3),(1,0,0,1)".toList "C1".toList
    "(1,2,3)".toList ["(1,0,0,1)".toList] [1, 2, 3] pickPlaceRec
    (myAtan2 2 (-1), 0, 0) rfl rfl rfl c9PlaceRpy 1 2 3 rfl rfl rfl]
  rw [show placeOrientation ["(1,0,0,1)".toList] = [1, 0, 0, 1] from rfl]
  norm_num [ppState0, c9St1, pickPlaceRegistry, pickPlaceRec, round3q_one,
    round3q_two, round3q_three, round3r_zero, mkLabel_pose1, dictSet]

theorem c9Line2 : processLine c9St1 "Pick(C1)".toList = .ok c9St2 := by
  rw [show "Pick(C1)".toList = "Pick(".toList ++ "C1".toList ++ [')'] from rfl]
  rw [processLine_pick_found c9St1 "C1".toList
    { id := "C1", position := [1, 2, 3], orientation := [1, 0, 0, 1] } rfl
    (myAtan2 2 (-1), 0, 0)
    (by rw [if_neg (by simp)]; exact qte_q1001) 1 2 3 rfl rfl rfl]
  norm_num [c9St1, c9St2, round3q_one, round3q_two, round3q_three, round3r_zero,
    mkLabel_pose2]

/-- Counterexample to C9's sweeping conclusion: after
`Place(C1,(1,2,3),(1,0,0,1))` stores the 4-component orientation
`[1,0,0,1]`, the later `Pick(C1)` converts exactly that quaternion and
reports yaw `0` — not the claimed identity-substituted `1.0` — so a
Place-stored orientation *is* reflected in a later pose. -/
theorem C9_counterexample :
    poseYawAt (process_pose_sequence "Place(C1,(1,2,3),(1,0,0,1))\nPick(C1)"
      pickPlaceRegistry) "pose2" = some 0 ∧ (0 : ℝ) ≠ 1 := by
  constructor
  · have hsteps : processLines ["Place(C1,(1,2,3),(1,0,0,1))".toList, "Pick(C1)".toList]
        ppState0 = .ok c9St2 := by
      unfold processLines
      rw [c9Line1]
      show processLines ["Pick(C1)".toList] c9St1 = .ok c9St2
      unfold processLines
      rw [c9Line2]
      rfl
    rw [process_pose_sequence_eq "Place(C1,(1,2,3),(1,0,0,1))\nPick(C1)" pickPlaceRegistry
      ["Place(C1,(1,2,3),(1,0,0,1))".toList, "Pick(C1)".toList] rfl]
    rw [show (⟨pickPlaceRegistry, [], [], 1⟩ : SynthState) = ppState0 from rfl]
    rw [hsteps]
    rfl
  · norm_num

/-- **C9** (amended).  A Pick — and likewise a pour destination — that
reads a container whose stored orientation has fewer than 4 components
(in particular any 3-component orientation left by a Place) substitutes
the identity quaternion and, through the degenerate fallback, emits
roll `0`, pitch `0`, yaw `1`.  (A Place that stores a 4-component
orientation, by contrast, is reflected in later poses:
`C9_counterexample`.) -/
theorem C9_short_orientation_reads :
    (∀ (st : SynthState) (content : List Char) (ct : Container) (x y z : ℚ),
      dictGet st.containers (String.mk (pyStrip content)) = some ct →
      ct.orientation.length < 4 →
      ct.position.get? 0 = some x → ct.position.get? 1 = some y →
      ct.position.get? 2 = some z →
      processLine st ("Pick(".toList ++ content ++ [')']) =
        .ok { st with
          poses := st.poses ++ [(mkLabel false st.counter,
            .pose (round3q x) (round3q y) (round3q z) 0 0 1)],
          targets := st.targets ++ [.str (mkLabel false st.counter), .str "grasp"],
          counter := st.counter + 1 }) ∧
    (∀ (st : SynthState) (content : List Char) (a0 a1 : List Char)
        (restArgs : List (List Char)) (dest : Container) (x y z : ℚ),
      split_args (pyStrip content) = a0 :: a1 :: restArgs →
      dictGet st.containers (String.mk a1) = some dest →
      dest.orientation.length < 4 →
      dest.position.get? 0 = some x → dest.position.get? 1 = some y →
      dest.position.get? 2 = some z →
      processLine st ("pour(".toList ++ content ++ [')']) =
        .ok { st with
          poses := st.poses ++ [(mkLabel false st.counter,
            .pose (round3q x) (round3q y) (round3q z) 0 0 1)],
          targets := st.targets ++ [.str (mkLabel false st.counter),
            .num (157 / 100), .num (-(157 / 100))],
          counter := st.counter + 1 }) := by
  constructor
  · intro st content ct x y z hget hlen hx hy hz
    have hq : quaternion_to_euler
        (if ct.orientation.length < 4 then [0, 0, 0, 1] else ct.orientation) =
        .ok ((0 : ℝ), (0 : ℝ), (1 : ℝ)) := by
      rw [if_pos hlen]
      exact qte_identity
    rw [processLine_pick_found st content ct hget (0, 0, 1) hq x y z hx hy hz]
    norm_num [round3r_zero, round3r_one]
  · intro st content a0 a1 restArgs dest x y z hsplit hget hlen hx hy hz
    have hq : quaternion_to_euler
        (if dest.orientation.length < 4 then [0, 0, 0, 1] else dest.orientation) =
        .ok ((0 : ℝ), (0 : ℝ), (1 : ℝ)) := by
      rw [if_pos hlen]
      exact qte_identity
    rw [processLine_pour_found st content a0 a1 restArgs dest (0, 0, 1) hsplit hget hq
      x y z hx hy hz]
    norm_num [round3r_zero, round3r_one]

/-- A one-container state whose stored orientation has 3 components. -/
noncomputable def c9ShortState : SynthState :=
  { containers := [("C2", { id := "C2", position := [5, 6, 7], orientation := [0, 0, 1] })]
    poses := []
    targets := []
    counter := 1 }

/-- Witness for `C9_short_orientation_reads`: picking a container with
the 3-component orientation `[0,0,1]` yields the pose `(5,6,7,0,0,1)`. -/
theorem C9_short_orientation_reads_witness :
    (dictGet c9ShortState.containers (String.mk (pyStrip "C2".toList)) =
      some { id := "C2", position := [5, 6, 7], orientation := [0, 0, 1] } ∧
     (({ id := "C2", position := [5, 6, 7], orientation := [0, 0, 1] } : Container)).orientation.length < 4) ∧
    processLine c9ShortState ("Pick(".toList ++ "C2".toList ++ [')']) =
      .ok { c9ShortState with
        poses := c9ShortState.poses ++ [(mkLabel false c9ShortState.counter,
          .pose (round3q 5) (round3q 6) (round3q 7) 0 0 1)],
        targets := c9ShortState.targets ++
          [.str (mkLabel false c9ShortState.counter), .str "grasp"],
        counter := c9ShortState.counter + 1 } := by
  refine ⟨⟨rfl, by norm_num⟩, ?_⟩
  exact C9_short_orientation_reads.1 c9ShortState "C2".toList
    { id := "C2", position := [5, 6, 7], orientation := [0, 0, 1] } 5 6 7
    rfl (by norm_num) rfl rfl rfl
